import Mathlib

/-!
Round-robin load balancer (`main.go`)

A shallow embedding of the dispatcher of `main.go`: the `Server` interface, the
`LoadBalancer` record, `NewLoadBalancer`, `getNextAvailableServer` and `ServeProxy`.

Modelling conventions.

* A Go `int` is a 64-bit two's-complement integer.  It is embedded as an `Int`, every
  addition of the source is followed by `wrapInt`, and `%` is Go's truncated remainder
  (`Int.tmod`), which panics on a zero divisor.
* A slice is a `List`; `xs[index]` panics when `index` is negative or `>= len(xs)`.
* A run-time panic is a value of `Panic` returned through `Except`.
* A value of the interface type `Server` is the record of what its methods answer;
  the pool holds targets (no nil entries).  `Serve`, `http.Error` and `fmt.Printf` act on
  the outside world and are recorded as `Effect`s in call order.
* Every call of `IsAlive` is recorded, by pool index, in the `probes` of a `Selection`.
* A Go slice of interface values (16 bytes each) has fewer than `2^62` elements; the
  theorems about non-empty pools carry this as `servers.length ≤ 2 ^ 62`, the bound under
  which `roundRobinCount + i` cannot wrap for an in-range cursor.
* The standard library's `url.Parse` is a parameter of `newSimpleServer`; a method with
  a pointer receiver returns its value together with the receiver afterwards.
* Concurrent calls are interleavings of the steps of `Call.step`, each of which touches
  the shared cursor at most once; run alone, the steps compute `getNextAvailableServer`.
-/

namespace LoadBalancerRR

/-- The interface `Server`: a target answers `Address()` and `IsAlive()`. -/
structure Server where
  Address : String
  IsAlive : Bool
deriving DecidableEq

/-- The struct `LoadBalancer` of `main.go`. -/
structure LoadBalancer where
  servers : List Server
  roundRobinCount : Int
  port : String
deriving DecidableEq

/-- Run-time panics the selection code could raise. -/
inductive Panic where
  | divideByZero
  | indexOutOfRange (index : Int) (len : Nat)
deriving DecidableEq

/-- Two's-complement wrap-around of a 64-bit `int`. -/
def wrapInt (x : Int) : Int :=
  (x + 2 ^ 63) % 2 ^ 64 - 2 ^ 63

/-- Go's `a % b` on `int`: truncated remainder, panic on `b == 0`. -/
def goMod (a b : Int) : Except Panic Int :=
  if b = 0 then Except.error Panic.divideByZero else Except.ok (Int.tmod a b)

/-- Go's `xs[index]` on a slice of targets. -/
def sliceIndex (xs : List Server) (index : Int) : Except Panic Server :=
  if index < 0 then Except.error (Panic.indexOutOfRange index xs.length)
  else
    match xs[index.toNat]? with
    | some s => Except.ok s
    | none => Except.error (Panic.indexOutOfRange index xs.length)

/-- `NewLoadBalancer(port, servers)`. -/
def NewLoadBalancer (port : String) (servers : List Server) : LoadBalancer :=
  { port := port, servers := servers, roundRobinCount := 0 }

/-- Outcome of one `getNextAvailableServer` call: the returned interface value
(`none` is Go's `nil`), the load balancer afterwards, and the pool indices on which
`IsAlive` was called, in call order. -/
structure Selection where
  server : Option Server
  lb : LoadBalancer
  probes : List Int
deriving DecidableEq

/-- The loop `for i := 0; i < numServers; i++ { ... }` of `getNextAvailableServer`,
entered at loop variable `i` with `rem = numServers - i` iterations left; falling out
of the loop reaches the final `return nil`. -/
def scanLoop (lb : LoadBalancer) (numServers : Nat) : Nat → Nat → Except Panic Selection
  | 0, _ => Except.ok { server := none, lb := lb, probes := [] }
  | rem + 1, i =>
    match goMod (wrapInt (lb.roundRobinCount + (i : Int))) (numServers : Int) with
    | Except.error e => Except.error e
    | Except.ok index =>
      match sliceIndex lb.servers index with
      | Except.error e => Except.error e
      | Except.ok server =>
        if server.IsAlive then
          match goMod (wrapInt (index + 1)) (numServers : Int) with
          | Except.error e => Except.error e
          | Except.ok next =>
            Except.ok { server := some server,
                        lb := { lb with roundRobinCount := next },
                        probes := [index] }
        else
          match scanLoop lb numServers rem (i + 1) with
          | Except.error e => Except.error e
          | Except.ok sel => Except.ok { sel with probes := index :: sel.probes }

/-- The method `getNextAvailableServer` of `main.go`. -/
def getNextAvailableServer (lb : LoadBalancer) : Except Panic Selection :=
  let numServers := lb.servers.length
  if numServers = 0 then
    Except.ok { server := none, lb := lb, probes := [] }
  else
    scanLoop lb numServers numServers 0

/-- The constant `http.StatusServiceUnavailable`. -/
def StatusServiceUnavailable : Nat := 503

/-- Calls `ServeProxy` makes on its collaborators: `http.Error(w, error, code)` (the
standard library's plain-text error reply), `fmt.Printf(format, args...)`, and
`target.Serve(w, r)`. -/
inductive Effect (W R : Type) where
  | httpError (w : W) (error : String) (code : Nat)
  | printf (format : String) (args : List String)
  | serve (target : Server) (w : W) (r : R)
deriving DecidableEq

/-- Whether a collaborator call is a `Serve` call. -/
def Effect.isServe {W R : Type} : Effect W R → Bool
  | Effect.serve _ _ _ => true
  | _ => false

/-- Whether a collaborator call is an `http.Error` reply. -/
def Effect.isHttpError {W R : Type} : Effect W R → Bool
  | Effect.httpError _ _ _ => true
  | _ => false

/-- The method `ServeProxy` of `main.go`: the load balancer afterwards and the
collaborator calls made, in order. -/
def ServeProxy {W R : Type} (lb : LoadBalancer) (w : W) (r : R) :
    Except Panic (LoadBalancer × List (Effect W R)) :=
  match getNextAvailableServer lb with
  | Except.error e => Except.error e
  | Except.ok sel =>
    match sel.server with
    | none =>
      Except.ok (sel.lb, [Effect.httpError w "No available server" StatusServiceUnavailable])
    | some targetServer =>
      Except.ok (sel.lb,
        [Effect.printf "Forwarding request to address %q\n" [targetServer.Address],
         Effect.serve targetServer w r])

/-- Run `k` consecutive `getNextAvailableServer` calls: the outcome of each call, in
call order, and the load balancer after the last one. -/
def callsFrom : Nat → LoadBalancer → Except Panic (List Selection × LoadBalancer)
  | 0, lb => Except.ok ([], lb)
  | k + 1, lb =>
    match getNextAvailableServer lb with
    | Except.error e => Except.error e
    | Except.ok sel =>
      match callsFrom k sel.lb with
      | Except.error e => Except.error e
      | Except.ok (rest, final) => Except.ok (sel :: rest, final)

/-- The pool index of the target a call returned: the last index probed, when the
call returned a target. -/
def Selection.position (sel : Selection) : Option Int :=
  match sel.server with
  | none => none
  | some _ => sel.probes.getLast?

/-- Whether pool position `j` holds a target whose `IsAlive()` answers true. -/
def aliveAt (servers : List Server) (j : Nat) : Bool :=
  match servers[j]? with
  | some s => s.IsAlive
  | none => false

/-- The cursor is a valid index of the pool. -/
def InRange (lb : LoadBalancer) : Prop :=
  0 ≤ lb.roundRobinCount ∧ lb.roundRobinCount < (lb.servers.length : Int)

instance (lb : LoadBalancer) : Decidable (InRange lb) :=
  inferInstanceAs (Decidable (_ ∧ _))

/-- The cursor invariant of the dispatcher: the cursor indexes the pool whenever the
pool is not empty. -/
def CursorInv (lb : LoadBalancer) : Prop :=
  0 < lb.servers.length →
    0 ≤ lb.roundRobinCount ∧ lb.roundRobinCount < (lb.servers.length : Int)

instance (lb : LoadBalancer) : Decidable (CursorInv lb) :=
  inferInstanceAs (Decidable (_ → _))

/-- The pool positions `0 .. n-1` in cyclic order, starting at position `c`. -/
def cyclicFrom (n c : Nat) : List Nat :=
  (List.range n).rotate c

/-- The positions of the live targets, in pool order. -/
def alivePositions (servers : List Server) : List Nat :=
  (List.range servers.length).filter (aliveAt servers)

/-- The positions of the live targets, in cyclic order starting at position `c`. -/
def aliveCycle (servers : List Server) (c : Nat) : List Nat :=
  (cyclicFrom servers.length c).filter (aliveAt servers)

/-- The pool indices the loop of `getNextAvailableServer` visits, from loop variable `i`
for `m` iterations, when the cursor is `c`. -/
def visited (lb : LoadBalancer) (c i m : Nat) : List Int :=
  (List.range' i m).map (fun t => (((c + t) % lb.servers.length : Nat) : Int))

/-- What the call number `t` (from 0) of a run selects, on the cyclic list `A` of live
positions at the start of the run: the head of `A` rotated `t` times. -/
def SelectsAt (lb : LoadBalancer) (A : List Nat) (t : Nat) (sel : Selection) : Prop :=
  ∃ j s, (A.rotate t).head? = some j ∧ lb.servers[j]? = some s ∧ s.IsAlive = true ∧
    sel.server = some s ∧ sel.position = some (j : Int) ∧
    sel.lb = { lb with roundRobinCount := (((j + 1) % lb.servers.length : Nat) : Int) }

/-- Pool of three live targets. -/
def poolABC : List Server :=
  [{ Address := "http://a", IsAlive := true },
   { Address := "http://b", IsAlive := true },
   { Address := "http://c", IsAlive := true }]

/-- Pool `[A(dead), B(alive), C(alive)]`. -/
def poolDeadA : List Server :=
  [{ Address := "http://a", IsAlive := false },
   { Address := "http://b", IsAlive := true },
   { Address := "http://c", IsAlive := true }]

/-- Pool of two dead targets. -/
def poolDead : List Server :=
  [{ Address := "http://a", IsAlive := false },
   { Address := "http://b", IsAlive := false }]

/-! ### Shipped targets -/

/-- The `*httputil.ReverseProxy` that `httputil.NewSingleHostReverseProxy(target)`
builds: a forwarding handle bound to the parsed URL `target`. -/
structure ReverseProxy (U : Type) where
  target : U

/-- The struct `simpleServer` of `main.go`; `U` stands for `*url.URL`. -/
structure simpleServer (U : Type) where
  address : String
  proxy : ReverseProxy U

/-- `newSimpleServer(address)`.  `urlParse` stands for the standard library's
`url.Parse`, returning the parsed URL or its error; `panic(err)` is the `Except.error`
carrying that error. -/
def newSimpleServer {U E : Type} (urlParse : String → Except E U) (address : String) :
    Except E (simpleServer U) :=
  match urlParse address with
  | Except.error err => Except.error err
  | Except.ok serverURL =>
    Except.ok { address := address, proxy := { target := serverURL } }

/-- The method `(s *simpleServer) Address()`: the value returned and the receiver
afterwards. -/
def simpleServer.Address {U : Type} (s : simpleServer U) : String × simpleServer U :=
  (s.address, s)

/-- The method `(s *simpleServer) IsAlive()`: the value returned and the receiver
afterwards. -/
def simpleServer.IsAlive {U : Type} (s : simpleServer U) : Bool × simpleServer U :=
  (true, s)

/-- A `*simpleServer` as a value of the interface `Server`: what its methods answer. -/
def simpleServer.asServer {U : Type} (s : simpleServer U) : Server :=
  { Address := s.Address.1, IsAlive := s.IsAlive.1 }

/-! ### Reachable states -/

/-- The load balancers reachable from `NewLoadBalancer(port, servers)` by calls of
`getNextAvailableServer` and `ServeProxy`. -/
inductive Reachable (port : String) (servers : List Server) : LoadBalancer → Prop where
  | init : Reachable port servers (NewLoadBalancer port servers)
  | next {lb : LoadBalancer} {sel : Selection} :
      Reachable port servers lb → getNextAvailableServer lb = Except.ok sel →
      Reachable port servers sel.lb
  | serve {W R : Type} {lb after : LoadBalancer} {w : W} {r : R}
      {effects : List (Effect W R)} :
      Reachable port servers lb → ServeProxy lb w r = Except.ok (after, effects) →
      Reachable port servers after

/-! ### Concurrent calls -/

/-- Control state of one in-flight `getNextAvailableServer` call, cut so that every
step reads or writes the shared field `roundRobinCount` at most once:
`enter` is before line 59; `loopHead n i` is before the loop test and the cursor read
of line 65; `haveIndex n i index` is after line 65, before lines 66 and 67;
`write n index server` is after `IsAlive()` answered true, before the cursor write of
line 68; `returned` and `panicked` are final. -/
inductive Call where
  | enter
  | loopHead (numServers i : Nat)
  | haveIndex (numServers i : Nat) (index : Int)
  | write (numServers : Nat) (index : Int) (server : Server)
  | returned (result : Option Server)
  | panicked (p : Panic)
deriving DecidableEq

/-- One step of a call on the shared load balancer. -/
def Call.step (lb : LoadBalancer) : Call → LoadBalancer × Call
  | Call.enter =>
    if lb.servers.length = 0 then (lb, Call.returned none)
    else (lb, Call.loopHead lb.servers.length 0)
  | Call.loopHead numServers i =>
    if i < numServers then
      match goMod (wrapInt (lb.roundRobinCount + (i : Int))) (numServers : Int) with
      | Except.error e => (lb, Call.panicked e)
      | Except.ok index => (lb, Call.haveIndex numServers i index)
    else (lb, Call.returned none)
  | Call.haveIndex numServers i index =>
    match sliceIndex lb.servers index with
    | Except.error e => (lb, Call.panicked e)
    | Except.ok server =>
      if server.IsAlive then (lb, Call.write numServers index server)
      else (lb, Call.loopHead numServers (i + 1))
  | Call.write numServers index server =>
    match goMod (wrapInt (index + 1)) (numServers : Int) with
    | Except.error e => (lb, Call.panicked e)
    | Except.ok next => ({ lb with roundRobinCount := next }, Call.returned (some server))
  | Call.returned result => (lb, Call.returned result)
  | Call.panicked p => (lb, Call.panicked p)

/-- Run one call alone for `fuel` steps. -/
def runAlone : Nat → LoadBalancer × Call → LoadBalancer × Call
  | 0, st => st
  | fuel + 1, (lb, c) => runAlone fuel (Call.step lb c)

/-- Which of two concurrent calls takes the next step. -/
inductive Who where
  | first
  | second
deriving DecidableEq

/-- Two concurrent calls on one load balancer, with no lock between them: the
scheduler picks, step by step, which call moves. -/
def runSchedule : List Who → LoadBalancer × Call × Call → LoadBalancer × Call × Call
  | [], st => st
  | Who.first :: rest, (lb, c₁, c₂) =>
    runSchedule rest ((Call.step lb c₁).1, (Call.step lb c₁).2, c₂)
  | Who.second :: rest, (lb, c₁, c₂) =>
    runSchedule rest ((Call.step lb c₂).1, c₁, (Call.step lb c₂).2)

/-- What a finished sequential call looks like as a state of the step model. -/
def outcome (lb : LoadBalancer) : Except Panic Selection → LoadBalancer × Call
  | Except.ok sel => (sel.lb, Call.returned sel.server)
  | Except.error e => (lb, Call.panicked e)

/-- Whether `c` may follow the first letter of a URI scheme (RFC 3986, section 3.1). -/
def isSchemeChar (c : Char) : Bool :=
  c.isAlpha || c.isDigit || c = '+' || c = '-' || c = '.'

/-- Whether `address` begins with a scheme and a colon, as every URI does (RFC 3986,
section 3: a letter, then letters, digits, `+`, `-` or `.`, then `:`). -/
def hasScheme (address : String) : Bool :=
  match address.toList with
  | [] => false
  | c :: rest =>
    c.isAlpha &&
      (match rest.dropWhile isSchemeChar with
       | ':' :: _ => true
       | _ => false)

/-- Two conditions that every valid URI meets: it begins with a scheme and a colon, and
it contains no space. -/
def uriShaped (address : String) : Bool :=
  hasScheme address && !address.contains ' '

/-- The pool `main` configures, with each URL stood for by its address string. -/
def shippedTargets : List (simpleServer String) :=
  [{ address := "https://www.google.com/", proxy := { target := "https://www.google.com/" } },
   { address := "https://www.baidu.com", proxy := { target := "https://www.baidu.com" } },
   { address := "https://www.bing.com", proxy := { target := "https://www.bing.com" } },
   { address := "https://search.yahoo.com", proxy := { target := "https://search.yahoo.com" } },
   { address := "https://duckduckgo.com", proxy := { target := "https://duckduckgo.com" } }]

/-! ## Arithmetic of the scan -/

theorem wrapInt_of_fits (x : Int) (h0 : 0 ≤ x) (h1 : x < 2 ^ 63) : wrapInt x = x := by
  unfold wrapInt
  have e : (2 : Int) ^ 63 = 9223372036854775808 := by norm_num
  have e2 : (2 : Int) ^ 64 = 18446744073709551616 := by norm_num
  rw [e] at h1 ⊢
  rw [e2]
  omega

theorem goMod_index (n c i : Nat) (hn : n ≤ 2 ^ 62) (hc : c < n) (hi : i < n) :
    goMod (wrapInt ((c : Int) + (i : Int))) (n : Int) = Except.ok (((c + i) % n : Nat) : Int) := by
  have e : (2 : Nat) ^ 62 = 4611686018427387904 := by norm_num
  have e3 : (2 : Int) ^ 63 = 9223372036854775808 := by norm_num
  rw [e] at hn
  have hw : wrapInt ((c : Int) + (i : Int)) = ((c + i : Nat) : Int) := by
    rw [wrapInt_of_fits _ (by omega) (by rw [e3]; omega)]
    push_cast
    rfl
  have hn0 : (n : Int) ≠ 0 := by omega
  rw [hw]
  unfold goMod
  rw [if_neg hn0, Int.ofNat_tmod]

theorem sliceIndex_nat (xs : List Server) (j : Nat) (s : Server) (h : xs[j]? = some s) :
    sliceIndex xs (j : Int) = Except.ok s := by
  unfold sliceIndex
  have : ¬ ((j : Int) < 0) := by omega
  rw [if_neg this]
  simp [h]

theorem goMod_next (n j : Nat) (hn : n ≤ 2 ^ 62) (hj : j < n) :
    goMod (wrapInt ((j : Int) + 1)) (n : Int) = Except.ok (((j + 1) % n : Nat) : Int) := by
  have e : (2 : Nat) ^ 62 = 4611686018427387904 := by norm_num
  have e3 : (2 : Int) ^ 63 = 9223372036854775808 := by norm_num
  rw [e] at hn
  have hw : wrapInt ((j : Int) + 1) = ((j + 1 : Nat) : Int) := by
    rw [wrapInt_of_fits _ (by omega) (by rw [e3]; omega)]
    push_cast
    rfl
  have hn0 : (n : Int) ≠ 0 := by omega
  rw [hw]
  unfold goMod
  rw [if_neg hn0, Int.ofNat_tmod]

theorem aliveAt_false_get (lb : LoadBalancer) (j : Nat) (hj : j < lb.servers.length)
    (h : aliveAt lb.servers j = false) :
    ∃ s, lb.servers[j]? = some s ∧ s.IsAlive = false := by
  unfold aliveAt at h
  rw [List.getElem?_eq_getElem hj] at h
  exact ⟨lb.servers[j], List.getElem?_eq_getElem hj, h⟩

theorem aliveAt_true_get (lb : LoadBalancer) (j : Nat) (h : aliveAt lb.servers j = true) :
    ∃ s, lb.servers[j]? = some s ∧ s.IsAlive = true := by
  unfold aliveAt at h
  cases hs : lb.servers[j]? with
  | none => rw [hs] at h; simp at h
  | some s => rw [hs] at h; exact ⟨s, rfl, h⟩

/-! ## The scan loop -/

theorem scanLoop_none (lb : LoadBalancer) (c : Nat) (hc : lb.roundRobinCount = (c : Int))
    (hn : lb.servers.length ≤ 2 ^ 62) (hcn : c < lb.servers.length) :
    ∀ rem i, i + rem = lb.servers.length →
      (∀ t, i ≤ t → t < lb.servers.length →
        aliveAt lb.servers ((c + t) % lb.servers.length) = false) →
      scanLoop lb lb.servers.length rem i
        = Except.ok { server := none, lb := lb, probes := visited lb c i rem } := by
  intro rem
  induction rem with
  | zero => intro i _ _; rfl
  | succ rem ih =>
    intro i hi hdead
    have hin : i < lb.servers.length := by omega
    have hpos : (c + i) % lb.servers.length < lb.servers.length :=
      Nat.mod_lt _ (by omega)
    obtain ⟨s, hs, hsd⟩ := aliveAt_false_get lb _ hpos (hdead i (le_refl _) hin)
    have hrec := ih (i + 1) (by omega) (fun t ht1 ht2 => hdead t (by omega) ht2)
    unfold scanLoop
    rw [hc, goMod_index _ _ _ hn hcn hin]
    simp only [sliceIndex_nat _ _ _ hs, hsd, hrec]
    simp [visited, List.range'_succ]

theorem scanLoop_found (lb : LoadBalancer) (c : Nat) (hc : lb.roundRobinCount = (c : Int))
    (hn : lb.servers.length ≤ 2 ^ 62) (hcn : c < lb.servers.length)
    (i₀ : Nat) (hi₀ : i₀ < lb.servers.length) (s : Server)
    (hs : lb.servers[(c + i₀) % lb.servers.length]? = some s) (halive : s.IsAlive = true) :
    ∀ rem i, i + rem = lb.servers.length → i ≤ i₀ →
      (∀ t, i ≤ t → t < i₀ → aliveAt lb.servers ((c + t) % lb.servers.length) = false) →
      scanLoop lb lb.servers.length rem i
        = Except.ok
            { server := some s,
              lb := { lb with
                roundRobinCount :=
                  ((((c + i₀) % lb.servers.length + 1) % lb.servers.length : Nat) : Int) },
              probes := visited lb c i (i₀ + 1 - i) } := by
  intro rem
  induction rem with
  | zero => intro i hi hle _; omega
  | succ rem ih =>
    intro i hi hle hdead
    have hin : i < lb.servers.length := by omega
    have hpos : (c + i) % lb.servers.length < lb.servers.length :=
      Nat.mod_lt _ (by omega)
    rcases Nat.eq_or_lt_of_le hle with heq | hlt
    · subst heq
      unfold scanLoop
      rw [hc, goMod_index _ _ _ hn hcn hin]
      simp only [sliceIndex_nat _ _ _ hs, halive, goMod_next _ _ hn hpos]
      simp [visited]
    · obtain ⟨s', hs', hsd⟩ := aliveAt_false_get lb _ hpos (hdead i (le_refl _) hlt)
      have hrec := ih (i + 1) (by omega) (by omega) (fun t ht1 ht2 => hdead t (by omega) ht2)
      unfold scanLoop
      rw [hc, goMod_index _ _ _ hn hcn hin]
      simp only [sliceIndex_nat _ _ _ hs', hsd, hrec]
      have : i₀ + 1 - i = (i₀ + 1 - (i + 1)) + 1 := by omega
      rw [this]
      simp [visited, List.range'_succ]

/-! ## One call of `getNextAvailableServer` -/

theorem InRange.cursor_eq {lb : LoadBalancer} (h : InRange lb) :
    lb.roundRobinCount = ((lb.roundRobinCount.toNat : Nat) : Int) :=
  (Int.toNat_of_nonneg h.1).symm

theorem InRange.toNat_lt {lb : LoadBalancer} (h : InRange lb) :
    lb.roundRobinCount.toNat < lb.servers.length := by
  have h1 := h.1
  have h2 := h.2
  omega

theorem getNext_select (lb : LoadBalancer) (hlen : lb.servers.length ≤ 2 ^ 62)
    (hcur : InRange lb) (i₀ : Nat) (hi₀ : i₀ < lb.servers.length)
    (halive : aliveAt lb.servers
      ((lb.roundRobinCount.toNat + i₀) % lb.servers.length) = true)
    (hdead : ∀ t, t < i₀ → aliveAt lb.servers
      ((lb.roundRobinCount.toNat + t) % lb.servers.length) = false) :
    getNextAvailableServer lb
      = Except.ok
          { server := lb.servers[(lb.roundRobinCount.toNat + i₀) % lb.servers.length]?,
            lb := { lb with
              roundRobinCount :=
                ((((lb.roundRobinCount.toNat + i₀) % lb.servers.length + 1)
                  % lb.servers.length : Nat) : Int) },
            probes := visited lb lb.roundRobinCount.toNat 0 (i₀ + 1) } := by
  obtain ⟨s, hs, hsa⟩ := aliveAt_true_get lb _ halive
  have hne : ¬ lb.servers.length = 0 := by omega
  unfold getNextAvailableServer
  simp only [hne, if_false]
  rw [scanLoop_found lb _ hcur.cursor_eq hlen hcur.toNat_lt i₀ hi₀ s hs hsa
    lb.servers.length 0 (by omega) (by omega) (fun t _ ht => hdead t ht), hs]
  rfl

theorem getNext_all_dead (lb : LoadBalancer) (hlen : lb.servers.length ≤ 2 ^ 62)
    (hcur : InRange lb)
    (hdead : ∀ t, t < lb.servers.length → aliveAt lb.servers
      ((lb.roundRobinCount.toNat + t) % lb.servers.length) = false) :
    getNextAvailableServer lb
      = Except.ok
          { server := none, lb := lb,
            probes := visited lb lb.roundRobinCount.toNat 0 lb.servers.length } := by
  have hne : ¬ lb.servers.length = 0 := by
    have := hcur.toNat_lt
    omega
  unfold getNextAvailableServer
  simp only [hne, if_false]
  exact scanLoop_none lb _ hcur.cursor_eq hlen hcur.toNat_lt lb.servers.length 0 (by omega)
    (fun t _ ht => hdead t ht)

/-- Every pool position is reached by the cyclic scan from an in-range cursor. -/
theorem scan_reaches (n c j : Nat) (hc : c < n) (hj : j < n) :
    ∃ i, i < n ∧ (c + i) % n = j := by
  by_cases h : c ≤ j
  · exact ⟨j - c, by omega, by rw [Nat.add_sub_cancel' h]; exact Nat.mod_eq_of_lt hj⟩
  · refine ⟨j + n - c, by omega, ?_⟩
    have : c + (j + n - c) = j + n := by omega
    rw [this, Nat.add_mod_right]
    exact Nat.mod_eq_of_lt hj

theorem aliveAt_of_mem (servers : List Server) (s : Server) (hs : s ∈ servers)
    (ha : s.IsAlive = true) : ∃ j, j < servers.length ∧ aliveAt servers j = true := by
  obtain ⟨j, hj, rfl⟩ := List.getElem_of_mem hs
  refine ⟨j, hj, ?_⟩
  unfold aliveAt
  rw [List.getElem?_eq_getElem hj]
  exact ha

theorem mem_of_aliveAt (servers : List Server) (j : Nat) (h : aliveAt servers j = true) :
    ∃ s, s ∈ servers ∧ s.IsAlive = true := by
  unfold aliveAt at h
  cases hs : servers[j]? with
  | none => rw [hs] at h; simp at h
  | some s =>
    rw [hs] at h
    exact ⟨s, List.getElem?_mem hs, h⟩

/-- In a pool with a live target, the cyclic scan from an in-range cursor has a least
offset at which it meets one. -/
theorem exists_least_alive (lb : LoadBalancer) (hcur : InRange lb)
    (hlive : ∃ s, s ∈ lb.servers ∧ s.IsAlive = true) :
    ∃ i, i < lb.servers.length ∧
      aliveAt lb.servers ((lb.roundRobinCount.toNat + i) % lb.servers.length) = true ∧
      ∀ t, t < i → aliveAt lb.servers
        ((lb.roundRobinCount.toNat + t) % lb.servers.length) = false := by
  obtain ⟨s, hs, ha⟩ := hlive
  obtain ⟨j, hj, hja⟩ := aliveAt_of_mem _ s hs ha
  obtain ⟨i, hi, hij⟩ := scan_reaches _ _ j hcur.toNat_lt hj
  have hex : ∃ i, i < lb.servers.length ∧
      aliveAt lb.servers ((lb.roundRobinCount.toNat + i) % lb.servers.length) = true :=
    ⟨i, hi, by rw [hij]; exact hja⟩
  refine ⟨Nat.find hex, (Nat.find_spec hex).1, (Nat.find_spec hex).2, ?_⟩
  intro t ht
  have hmin := Nat.find_min hex ht
  have htn : t < lb.servers.length := lt_trans ht (Nat.find_spec hex).1
  cases hb : aliveAt lb.servers ((lb.roundRobinCount.toNat + t) % lb.servers.length) with
  | false => rfl
  | true => exact absurd ⟨htn, hb⟩ hmin

/-- A call that returns `nil` leaves the load balancer as it was; every call leaves
the pool and the port as they were. -/
theorem scanLoop_frame (lb : LoadBalancer) (n : Nat) :
    ∀ rem i sel, scanLoop lb n rem i = Except.ok sel →
      sel.lb.servers = lb.servers ∧ sel.lb.port = lb.port ∧
        (sel.server = none → sel.lb = lb) := by
  intro rem
  induction rem with
  | zero =>
    intro i sel h
    simp only [scanLoop, Except.ok.injEq] at h
    subst h
    simp
  | succ rem ih =>
    intro i sel h
    unfold scanLoop at h
    split at h
    · exact absurd h (by simp)
    · split at h
      · exact absurd h (by simp)
      · split at h
        · split at h
          · exact absurd h (by simp)
          · simp only [Except.ok.injEq] at h
            subst h
            simp
        · split at h
          · exact absurd h (by simp)
          · rename_i sel' hrec
            simp only [Except.ok.injEq] at h
            subst h
            exact ih _ sel' hrec

theorem getNext_frame (lb : LoadBalancer) (sel : Selection)
    (h : getNextAvailableServer lb = Except.ok sel) :
    sel.lb.servers = lb.servers ∧ sel.lb.port = lb.port ∧
      (sel.server = none → sel.lb = lb) := by
  unfold getNextAvailableServer at h
  simp only at h
  split at h
  · simp only [Except.ok.injEq] at h
    subst h
    simp
  · exact scanLoop_frame lb _ _ _ sel h

/-- Shared form of the selection postcondition. -/
theorem first_alive_select (lb : LoadBalancer)
    (hlen : lb.servers.length ≤ 2 ^ 62) (hcur : InRange lb)
    (hlive : ∃ s, s ∈ lb.servers ∧ s.IsAlive = true) :
    ∃ i j sel, i < lb.servers.length ∧
      j = (lb.roundRobinCount.toNat + i) % lb.servers.length ∧
      aliveAt lb.servers j = true ∧
      (∀ t, t < i → aliveAt lb.servers
        ((lb.roundRobinCount.toNat + t) % lb.servers.length) = false) ∧
      getNextAvailableServer lb = Except.ok sel ∧
      sel.server = lb.servers[j]? ∧ sel.server ≠ none ∧
      sel.lb = { lb with roundRobinCount := (((j + 1) % lb.servers.length : Nat) : Int) } := by
  obtain ⟨i, hi, ha, hd⟩ := exists_least_alive lb hcur hlive
  refine ⟨i, _, _, hi, rfl, ha, hd, getNext_select lb hlen hcur i hi ha hd, rfl, ?_, rfl⟩
  obtain ⟨s, hs, _⟩ := aliveAt_true_get lb _ ha
  simp [hs]

/-! ## Cyclic order of the pool -/

theorem cyclicFrom_getElem? (n c t : Nat) (ht : t < n) :
    (cyclicFrom n c)[t]? = some ((c + t) % n) := by
  unfold cyclicFrom
  rw [List.getElem?_rotate (by simpa using ht), List.length_range,
    List.getElem?_range (Nat.mod_lt _ (by omega)), Nat.add_comm]

theorem cyclicFrom_length (n c : Nat) : (cyclicFrom n c).length = n := by
  unfold cyclicFrom
  rw [List.length_rotate, List.length_range]

theorem cyclicFrom_succ_mod (n c i : Nat) :
    cyclicFrom n (((c + i) % n + 1) % n) = (cyclicFrom n c).rotate (i + 1) := by
  unfold cyclicFrom
  have h1 : ∀ m, (List.range n).rotate (m % n) = (List.range n).rotate m := by
    intro m
    have := List.rotate_mod (List.range n) m
    rwa [List.length_range] at this
  rw [h1, ← List.rotate_rotate _ ((c + i) % n) 1, h1, List.rotate_rotate,
    List.rotate_rotate, Nat.add_assoc]

theorem visited_getLast? (lb : LoadBalancer) (c m : Nat) :
    (visited lb c 0 (m + 1)).getLast? = some (((c + m) % lb.servers.length : Nat) : Int) := by
  unfold visited
  rw [List.range'_concat]
  simp

/-- One call, read on the cyclic list of live positions: the head is selected and
moves to the back. -/
theorem getNext_cycle (lb : LoadBalancer) (hlen : lb.servers.length ≤ 2 ^ 62)
    (hcur : InRange lb) (j : Nat) (rest : List Nat)
    (hA : aliveCycle lb.servers lb.roundRobinCount.toNat = j :: rest) :
    ∃ sel s, getNextAvailableServer lb = Except.ok sel ∧
      lb.servers[j]? = some s ∧ s.IsAlive = true ∧
      sel.server = some s ∧ sel.position = some (j : Int) ∧
      sel.lb = { lb with roundRobinCount := (((j + 1) % lb.servers.length : Nat) : Int) } ∧
      aliveCycle lb.servers ((j + 1) % lb.servers.length) = rest ++ [j] := by
  unfold aliveCycle at hA
  obtain ⟨l₁, l₂, hsplit, hdead, halive, hrest⟩ := List.filter_eq_cons_iff.mp hA
  have hlenC := cyclicFrom_length lb.servers.length lb.roundRobinCount.toNat
  rw [hsplit] at hlenC
  simp only [List.length_append, List.length_cons] at hlenC
  have hi₀ : l₁.length < lb.servers.length := by omega
  have hj : (lb.roundRobinCount.toNat + l₁.length) % lb.servers.length = j := by
    have h := cyclicFrom_getElem? lb.servers.length lb.roundRobinCount.toNat l₁.length hi₀
    rw [hsplit, List.getElem?_append_right (le_refl _), Nat.sub_self,
      List.getElem?_cons_zero] at h
    exact (Option.some.inj h).symm
  have hd : ∀ t, t < l₁.length → aliveAt lb.servers
      ((lb.roundRobinCount.toNat + t) % lb.servers.length) = false := by
    intro t ht
    have h := cyclicFrom_getElem? lb.servers.length lb.roundRobinCount.toNat t (by omega)
    rw [hsplit, List.getElem?_append_left ht, List.getElem?_eq_getElem ht] at h
    have hmem : l₁[t] ∈ l₁ := List.getElem_mem ht
    have := hdead _ hmem
    rw [Option.some.inj h] at this
    simpa using this
  have hsel := getNext_select lb hlen hcur l₁.length hi₀ (by rw [hj]; exact halive) hd
  rw [hj] at hsel
  obtain ⟨s, hs, hsa⟩ := aliveAt_true_get lb j halive
  refine ⟨_, s, hsel, hs, hsa, hs, ?_, rfl, ?_⟩
  · simp only [Selection.position, hs, visited_getLast?, hj]
  · unfold aliveCycle
    rw [← hj, cyclicFrom_succ_mod, hsplit, hj]
    have : l₁ ++ j :: l₂ = (l₁ ++ [j]) ++ l₂ := by simp
    rw [this]
    have hl : l₁.length + 1 = (l₁ ++ [j]).length := by simp
    rw [hl, List.rotate_append_length_eq, List.filter_append, List.filter_append, hrest]
    have h1 : List.filter (aliveAt lb.servers) l₁ = [] := by
      rw [List.filter_eq_nil_iff]
      exact hdead
    rw [h1]
    simp [halive]

/-! ## Consecutive calls -/

theorem inRange_set (lb : LoadBalancer) (j : Nat) (hpos : 0 < lb.servers.length) :
    InRange { lb with roundRobinCount := (((j + 1) % lb.servers.length : Nat) : Int) } :=
  ⟨Int.natCast_nonneg _, Int.ofNat_lt.mpr (Nat.mod_lt _ hpos)⟩

theorem callsFrom_cycle :
    ∀ (m : Nat) (lb : LoadBalancer), lb.servers.length ≤ 2 ^ 62 → InRange lb →
      aliveCycle lb.servers lb.roundRobinCount.toNat ≠ [] →
      ∃ sels final, callsFrom m lb = Except.ok (sels, final) ∧ sels.length = m ∧
        final.servers = lb.servers ∧ final.port = lb.port ∧ InRange final ∧
        aliveCycle lb.servers final.roundRobinCount.toNat
          = (aliveCycle lb.servers lb.roundRobinCount.toNat).rotate m ∧
        ∀ t, t < m → ∃ sel, sels[t]? = some sel ∧
          SelectsAt lb (aliveCycle lb.servers lb.roundRobinCount.toNat) t sel := by
  intro m
  induction m with
  | zero =>
    intro lb _ hcur _
    exact ⟨[], lb, rfl, rfl, rfl, rfl, hcur, by rw [List.rotate_zero],
      fun t ht => absurd ht (Nat.not_lt_zero t)⟩
  | succ m ih =>
    intro lb hlen hcur hne
    obtain ⟨j, rest, hA⟩ := List.exists_cons_of_ne_nil hne
    obtain ⟨sel₀, s, hsel, hs, hsa, hserver, hposn, hlb, hA'⟩ :=
      getNext_cycle lb hlen hcur j rest hA
    have hpos : 0 < lb.servers.length := by
      have := hcur.toNat_lt
      omega
    have hs1 : sel₀.lb.servers = lb.servers := by rw [hlb]
    have hp1 : sel₀.lb.port = lb.port := by rw [hlb]
    have hc1 : sel₀.lb.roundRobinCount.toNat = (j + 1) % lb.servers.length := by
      rw [hlb]
      exact Int.toNat_ofNat _
    have hcur1 : InRange sel₀.lb := by
      rw [hlb]
      exact inRange_set lb j hpos
    have hrot : rest ++ [j] = (j :: rest).rotate 1 := by
      rw [List.rotate_cons_succ, List.rotate_zero]
    have hA1 : aliveCycle sel₀.lb.servers sel₀.lb.roundRobinCount.toNat
        = (aliveCycle lb.servers lb.roundRobinCount.toNat).rotate 1 := by
      rw [hs1, hc1, hA', hA, hrot]
    obtain ⟨sels, final, hcalls, hlen', hfs, hfp, hfr, hfA, hall⟩ :=
      ih sel₀.lb (by rw [hs1]; exact hlen) hcur1
        (by rw [hA1, hA, ← hrot]; simp)
    refine ⟨sel₀ :: sels, final, ?_, by simp [hlen'], by rw [hfs, hs1], by rw [hfp, hp1],
      hfr, ?_, ?_⟩
    · unfold callsFrom
      rw [hsel]
      simp only [hcalls]
    · rw [hA1, hs1, List.rotate_rotate, Nat.add_comm] at hfA
      exact hfA
    · intro t ht
      cases t with
      | zero =>
        refine ⟨sel₀, List.getElem?_cons_zero, j, s, ?_, hs, hsa, hserver, hposn, hlb⟩
        rw [List.rotate_zero, hA]
        rfl
      | succ t =>
        obtain ⟨sel, hget, j', s', hhead, hs', hsa', hserver', hposn', hlb'⟩ :=
          hall t (by omega)
        refine ⟨sel, by simpa using hget, j', s', ?_, by rw [← hs1]; exact hs', hsa',
          hserver', hposn', ?_⟩
        · rw [hA1, List.rotate_rotate, Nat.add_comm] at hhead
          exact hhead
        · rw [hlb', hs1, hlb]

theorem map_eq_of_pointwise {α β γ : Type} (xs : List α) (ys : List β) (f : α → γ)
    (g : β → γ) (hlen : xs.length = ys.length)
    (h : ∀ t, t < xs.length → ∃ x y, xs[t]? = some x ∧ ys[t]? = some y ∧ f x = g y) :
    xs.map f = ys.map g := by
  apply List.ext_getElem?
  intro t
  rw [List.getElem?_map, List.getElem?_map]
  by_cases ht : t < xs.length
  · obtain ⟨x, y, hx, hy, hxy⟩ := h t ht
    rw [hx, hy]
    simp [hxy]
  · rw [List.getElem?_eq_none (by omega), List.getElem?_eq_none (by omega)]
    rfl

theorem cycle_index (A : List Nat) (t : Nat) (ht : t < A.length + 1) (hA : A ≠ []) :
    (A.rotate t).head? = (A ++ A.take 1)[t]? := by
  have hpos : 0 < A.length := List.length_pos.mpr hA
  rcases Nat.lt_or_ge t A.length with h | h
  · rw [List.head?_rotate h, List.getElem?_append_left h]
  · have ht' : t = A.length := by omega
    subst ht'
    rw [List.rotate_length, List.getElem?_append_right (le_refl _), Nat.sub_self]
    cases A with
    | nil => exact absurd rfl hA
    | cons a as => rfl

theorem aliveCycle_perm (servers : List Server) (c : Nat) :
    (aliveCycle servers c).Perm (alivePositions servers) := by
  unfold aliveCycle alivePositions cyclicFrom
  exact (List.rotate_perm _ _).filter _

theorem aliveCycle_nodup (servers : List Server) (c : Nat) : (aliveCycle servers c).Nodup := by
  unfold aliveCycle cyclicFrom
  exact (List.nodup_rotate.mpr (List.nodup_range _)).filter _

theorem callsFrom_final :
    ∀ (m : Nat) (lb : LoadBalancer) (sels : List Selection) (final : LoadBalancer),
      callsFrom m lb = Except.ok (sels, final) →
      final = (sels.getLast?.map Selection.lb).getD lb := by
  intro m
  induction m with
  | zero =>
    intro lb sels final h
    simp only [callsFrom, Except.ok.injEq, Prod.mk.injEq] at h
    obtain ⟨h1, h2⟩ := h
    subst h1 h2
    rfl
  | succ m ih =>
    intro lb sels final h
    unfold callsFrom at h
    split at h
    · exact absurd h (by simp)
    · rename_i sel hsel
      split at h
      · exact absurd h (by simp)
      · rename_i rest final' hrest
        simp only [Except.ok.injEq, Prod.mk.injEq] at h
        obtain ⟨h1, h2⟩ := h
        subst h1 h2
        have := ih sel.lb rest final' hrest
        rw [this]
        cases rest with
        | nil => rfl
        | cons r rs =>
          rw [List.getLast?_cons_cons]
          obtain ⟨x, hx⟩ : ∃ x, (r :: rs).getLast? = some x :=
            ⟨_, List.getLast?_eq_getLast _ (by simp)⟩
          rw [hx]
          rfl

/-- One full round plus one call: with `k ≥ 1` live positions `A` in cyclic order from
the cursor, `k + 1` calls select `A` in order and then the head of `A` again. -/
theorem callsFrom_round (lb : LoadBalancer) (hlen : lb.servers.length ≤ 2 ^ 62)
    (hcur : InRange lb)
    (hne : aliveCycle lb.servers lb.roundRobinCount.toNat ≠ []) :
    ∃ sels final,
      callsFrom ((aliveCycle lb.servers lb.roundRobinCount.toNat).length + 1) lb
        = Except.ok (sels, final) ∧
      sels.map Selection.position
        = (aliveCycle lb.servers lb.roundRobinCount.toNat
            ++ (aliveCycle lb.servers lb.roundRobinCount.toNat).take 1).map
            (fun (j : Nat) => some (j : Int)) ∧
      sels.map Selection.server
        = (aliveCycle lb.servers lb.roundRobinCount.toNat
            ++ (aliveCycle lb.servers lb.roundRobinCount.toNat).take 1).map
            (fun j => lb.servers[j]?) ∧
      (∀ sel, sel ∈ sels → ∃ s, sel.server = some s ∧ s.IsAlive = true) ∧
      (∀ sel, sel ∈ sels → sel.lb.servers = lb.servers) ∧
      final.servers = lb.servers := by
  obtain ⟨sels, final, hcalls, hlen', hfs, _, _, _, hall⟩ :=
    callsFrom_cycle ((aliveCycle lb.servers lb.roundRobinCount.toNat).length + 1) lb hlen hcur hne
  have hpos : 0 < (aliveCycle lb.servers lb.roundRobinCount.toNat).length :=
    List.length_pos.mpr hne
  have hlenA : sels.length = (aliveCycle lb.servers lb.roundRobinCount.toNat
      ++ (aliveCycle lb.servers lb.roundRobinCount.toNat).take 1).length := by
    rw [hlen', List.length_append, List.length_take]
    omega
  refine ⟨sels, final, hcalls, ?_, ?_, ?_, ?_, hfs⟩
  · apply map_eq_of_pointwise _ _ _ _ hlenA
    intro t ht
    obtain ⟨sel, hget, j, s, hhead, _, _, _, hposn, _⟩ := hall t (by omega)
    rw [cycle_index _ t (by omega) hne] at hhead
    exact ⟨sel, j, hget, hhead, hposn⟩
  · apply map_eq_of_pointwise _ _ _ _ hlenA
    intro t ht
    obtain ⟨sel, hget, j, s, hhead, hs, _, hserver, _, _⟩ := hall t (by omega)
    rw [cycle_index _ t (by omega) hne] at hhead
    exact ⟨sel, j, hget, hhead, by rw [hserver, hs]⟩
  · intro sel hmem
    obtain ⟨t, hget⟩ := List.mem_iff_getElem?.mp hmem
    have ht : t < sels.length := (List.getElem?_eq_some.mp hget).1
    obtain ⟨sel', hget', j, s, _, _, hsa, hserver, _, _⟩ := hall t (by omega)
    rw [hget] at hget'
    cases Option.some.inj hget'
    exact ⟨s, hserver, hsa⟩
  · intro sel hmem
    obtain ⟨t, hget⟩ := List.mem_iff_getElem?.mp hmem
    have ht : t < sels.length := (List.getElem?_eq_some.mp hget).1
    obtain ⟨sel', hget', j, s, _, _, _, _, _, hlb⟩ := hall t (by omega)
    rw [hget] at hget'
    cases Option.some.inj hget'
    rw [hlb]

theorem aliveCycle_ne_nil (lb : LoadBalancer)
    (hk : 0 < (alivePositions lb.servers).length) (c : Nat) :
    aliveCycle lb.servers c ≠ [] := by
  intro h
  have := (aliveCycle_perm lb.servers c).length_eq
  rw [h] at this
  simp at this
  omega

theorem aliveAt_of_all (servers : List Server)
    (hall : ∀ s, s ∈ servers → s.IsAlive = true) (j : Nat) (hj : j < servers.length) :
    aliveAt servers j = true := by
  unfold aliveAt
  rw [List.getElem?_eq_getElem hj]
  exact hall _ (List.getElem_mem hj)

theorem aliveCycle_all_alive (servers : List Server)
    (hall : ∀ s, s ∈ servers → s.IsAlive = true) (c : Nat) :
    aliveCycle servers c = cyclicFrom servers.length c := by
  unfold aliveCycle
  rw [List.filter_eq_self]
  intro a ha
  unfold cyclicFrom at ha
  rw [List.mem_rotate, List.mem_range] at ha
  exact aliveAt_of_all servers hall a ha

theorem range_map_getElem? {α : Type} (xs : List α) :
    (List.range xs.length).map (fun j => xs[j]?) = xs.map some := by
  apply List.ext_getElem?
  intro t
  rw [List.getElem?_map, List.getElem?_map]
  by_cases ht : t < xs.length
  · rw [List.getElem?_range ht, List.getElem?_eq_getElem ht]
    simp [List.getElem?_eq_getElem ht]
  · rw [List.getElem?_eq_none (by simpa using ht), List.getElem?_eq_none (by omega)]
    rfl

/-! ## Selection contract -/

/-- C1 (round-robin fairness). For a pool of `N ≥ 1` targets (`N ≤ 2^62`), all alive,
`N + 1` consecutive `getNextAvailableServer` calls on `NewLoadBalancer(port, servers)`
return `servers[0], ..., servers[N-1]` in that order, selecting the pool positions
`0, ..., N-1` once each, and then `servers[0]` (position 0) again. -/
theorem round_robin_fairness (port : String) (servers : List Server)
    (hN : 1 ≤ servers.length) (hlen : servers.length ≤ 2 ^ 62)
    (hall : ∀ s, s ∈ servers → s.IsAlive = true) :
    ∃ sels final,
      callsFrom (servers.length + 1) (NewLoadBalancer port servers)
        = Except.ok (sels, final) ∧
      sels.map Selection.server = servers.map some ++ [servers[0]?] ∧
      sels.map Selection.position
        = (List.range servers.length ++ [0]).map (fun (j : Nat) => some (j : Int)) := by
  have hcur : InRange (NewLoadBalancer port servers) :=
    ⟨le_refl _, Int.ofNat_lt.mpr hN⟩
  have hA : aliveCycle (NewLoadBalancer port servers).servers
      (NewLoadBalancer port servers).roundRobinCount.toNat = List.range servers.length := by
    show aliveCycle servers 0 = _
    rw [aliveCycle_all_alive servers hall 0]
    exact List.rotate_zero _
  have hne : aliveCycle (NewLoadBalancer port servers).servers
      (NewLoadBalancer port servers).roundRobinCount.toNat ≠ [] := by
    rw [hA]
    intro h
    have := congrArg List.length h
    rw [List.length_range, List.length_nil] at this
    omega
  obtain ⟨sels, final, hcalls, hp, hs, _, _, _⟩ :=
    callsFrom_round (NewLoadBalancer port servers) hlen hcur hne
  rw [hA] at hcalls hp hs
  rw [List.length_range] at hcalls
  have htake : (List.range servers.length).take 1 = [0] := by
    cases hn : servers.length with
    | zero => omega
    | succ n => simp [List.range_succ_eq_map]
  rw [htake] at hp hs
  refine ⟨sels, final, hcalls, ?_, hp⟩
  rw [hs, List.map_append]
  show (List.range servers.length).map (fun j => servers[j]?) ++ [servers[0]?] = _
  rw [range_map_getElem?]

theorem round_robin_fairness_witness :
    (∀ s, s ∈ poolABC → s.IsAlive = true) ∧
    ∃ sels final,
      callsFrom 4 (NewLoadBalancer "8080" poolABC) = Except.ok (sels, final) ∧
      sels.map Selection.server
        = [some { Address := "http://a", IsAlive := true },
           some { Address := "http://b", IsAlive := true },
           some { Address := "http://c", IsAlive := true },
           some { Address := "http://a", IsAlive := true }] ∧
      sels.map Selection.position = [some 0, some 1, some 2, some 0] :=
  ⟨by decide, round_robin_fairness "8080" poolABC (by decide) (by decide) (by decide)⟩

/-- C2 (selection postcondition). For a pool of length `n` (a Go slice: `n ≤ 2^62`), a
cursor `c` with `0 ≤ c < n` and at least one live target, `getNextAvailableServer`
returns `servers[j]` with `j = (c + i) mod n` for the least `i < n` whose target
`servers[(c + i) mod n]` is alive, and only the cursor changes, to `(j + 1) mod n`. -/
theorem getNextAvailableServer_first_alive (lb : LoadBalancer)
    (hlen : lb.servers.length ≤ 2 ^ 62) (hcur : InRange lb)
    (hlive : ∃ s, s ∈ lb.servers ∧ s.IsAlive = true) :
    ∃ i j sel, i < lb.servers.length ∧
      j = (lb.roundRobinCount.toNat + i) % lb.servers.length ∧
      aliveAt lb.servers j = true ∧
      (∀ t, t < i → aliveAt lb.servers
        ((lb.roundRobinCount.toNat + t) % lb.servers.length) = false) ∧
      getNextAvailableServer lb = Except.ok sel ∧
      sel.server = lb.servers[j]? ∧ sel.server ≠ none ∧
      sel.lb = { lb with roundRobinCount := (((j + 1) % lb.servers.length : Nat) : Int) } := by
  obtain ⟨i, hi, ha, hd⟩ := exists_least_alive lb hcur hlive
  refine ⟨i, _, _, hi, rfl, ha, hd, getNext_select lb hlen hcur i hi ha hd, rfl, ?_, rfl⟩
  obtain ⟨s, hs, _⟩ := aliveAt_true_get lb _ ha
  simp [hs]

theorem getNextAvailableServer_first_alive_witness :
    InRange { servers := poolDeadA, roundRobinCount := 0, port := "8080" } ∧
    ∃ i j sel, i < 3 ∧ j = (0 + i) % 3 ∧ aliveAt poolDeadA j = true ∧
      (∀ t, t < i → aliveAt poolDeadA ((0 + t) % 3) = false) ∧
      getNextAvailableServer { servers := poolDeadA, roundRobinCount := 0, port := "8080" }
        = Except.ok sel ∧
      sel.server = poolDeadA[j]? ∧ sel.server ≠ none ∧
      sel.lb = { servers := poolDeadA,
                 roundRobinCount := (((j + 1) % 3 : Nat) : Int), port := "8080" } :=
  ⟨by decide,
   getNextAvailableServer_first_alive
     { servers := poolDeadA, roundRobinCount := 0, port := "8080" }
     (by decide) (by decide) ⟨_, List.mem_cons_of_mem _ (List.mem_cons_self _ _), rfl⟩⟩

/-- C3 (unavailability iff exhaustion). For every pool that is empty or has an in-range
cursor, `getNextAvailableServer` returns `nil` exactly when the pool is empty or holds
no live target, and then the load balancer, cursor included, is unchanged. -/
theorem getNextAvailableServer_nil_iff (lb : LoadBalancer)
    (hlen : lb.servers.length ≤ 2 ^ 62) (hcur : lb.servers = [] ∨ InRange lb) :
    ∃ sel, getNextAvailableServer lb = Except.ok sel ∧
      (sel.server = none ↔ (lb.servers = [] ∨ ∀ s, s ∈ lb.servers → s.IsAlive = false)) ∧
      (sel.server = none →
        sel.lb.roundRobinCount = lb.roundRobinCount ∧ sel.lb = lb) := by
  rcases hcur with hemp | hcur
  · refine ⟨{ server := none, lb := lb, probes := [] }, ?_, ?_, ?_⟩
    · unfold getNextAvailableServer
      simp [hemp]
    · simp [hemp]
    · intro _; exact ⟨rfl, rfl⟩
  · by_cases hlive : ∃ s, s ∈ lb.servers ∧ s.IsAlive = true
    · obtain ⟨i, j, sel, _, _, _, _, hsel, _, hne, _⟩ :=
        first_alive_select lb hlen hcur hlive
      refine ⟨sel, hsel, ?_, fun h => absurd h hne⟩
      constructor
      · intro h; exact absurd h hne
      · rintro (hemp | hdead)
        · obtain ⟨s, hs, _⟩ := hlive
          rw [hemp] at hs
          exact absurd hs (List.not_mem_nil _)
        · obtain ⟨s, hs, ha⟩ := hlive
          rw [hdead s hs] at ha
          exact absurd ha (by simp)
    · have hdead : ∀ s, s ∈ lb.servers → s.IsAlive = false := by
        intro s hs
        cases hb : s.IsAlive with
        | false => rfl
        | true => exact absurd ⟨s, hs, hb⟩ hlive
      have hscan : ∀ t, t < lb.servers.length → aliveAt lb.servers
          ((lb.roundRobinCount.toNat + t) % lb.servers.length) = false := by
        intro t _
        cases hb : aliveAt lb.servers
            ((lb.roundRobinCount.toNat + t) % lb.servers.length) with
        | false => rfl
        | true =>
          obtain ⟨s, hs, ha⟩ := mem_of_aliveAt _ _ hb
          rw [hdead s hs] at ha
          exact absurd ha (by simp)
      exact ⟨_, getNext_all_dead lb hlen hcur hscan,
        ⟨fun _ => Or.inr hdead, fun _ => rfl⟩, fun _ => ⟨rfl, rfl⟩⟩

theorem getNextAvailableServer_nil_iff_witness :
    (poolDead = [] ∨ InRange { servers := poolDead, roundRobinCount := 1, port := "8080" }) ∧
    ∃ sel, getNextAvailableServer { servers := poolDead, roundRobinCount := 1, port := "8080" }
        = Except.ok sel ∧
      (sel.server = none ↔ (poolDead = [] ∨ ∀ s, s ∈ poolDead → s.IsAlive = false)) ∧
      (sel.server = none →
        sel.lb.roundRobinCount = 1 ∧
          sel.lb = { servers := poolDead, roundRobinCount := 1, port := "8080" }) :=
  ⟨Or.inr (by decide),
   getNextAvailableServer_nil_iff
     { servers := poolDead, roundRobinCount := 1, port := "8080" }
     (by decide) (Or.inr (by decide))⟩

/-- The cursor after a call is in range again. -/
theorem getNext_total (lb : LoadBalancer) (hlen : lb.servers.length ≤ 2 ^ 62)
    (hinv : CursorInv lb) :
    ∃ sel, getNextAvailableServer lb = Except.ok sel ∧ CursorInv sel.lb ∧
      sel.lb.servers = lb.servers := by
  by_cases hemp : lb.servers.length = 0
  · refine ⟨{ server := none, lb := lb, probes := [] }, ?_, hinv, rfl⟩
    unfold getNextAvailableServer
    simp [hemp]
  · have hcur : InRange lb := hinv (by omega)
    by_cases hlive : ∃ s, s ∈ lb.servers ∧ s.IsAlive = true
    · obtain ⟨i, j, sel, _, _, _, _, hsel, _, _, hlb⟩ :=
        first_alive_select lb hlen hcur hlive
      refine ⟨sel, hsel, ?_, by rw [hlb]⟩
      rw [hlb]
      intro hpos
      have hlt : (j + 1) % lb.servers.length < lb.servers.length := Nat.mod_lt _ hpos
      exact ⟨Int.natCast_nonneg _, Int.ofNat_lt.mpr hlt⟩
    · have hscan : ∀ t, t < lb.servers.length → aliveAt lb.servers
          ((lb.roundRobinCount.toNat + t) % lb.servers.length) = false := by
        intro t _
        cases hb : aliveAt lb.servers
            ((lb.roundRobinCount.toNat + t) % lb.servers.length) with
        | false => rfl
        | true => exact absurd (mem_of_aliveAt _ _ hb) hlive
      exact ⟨_, getNext_all_dead lb hlen hcur hscan, hinv, rfl⟩

theorem ServeProxy_state {W R : Type} (lb : LoadBalancer) (w : W) (r : R) (sel : Selection)
    (h : getNextAvailableServer lb = Except.ok sel) :
    ∃ effects, ServeProxy lb w r = Except.ok (sel.lb, effects) := by
  unfold ServeProxy
  rw [h]
  obtain ⟨server, lb', probes⟩ := sel
  cases server with
  | none => exact ⟨_, rfl⟩
  | some t => exact ⟨_, rfl⟩

/-- C4 (cursor invariant). The predicate "`0 ≤ roundRobinCount < len(servers)` whenever
`len(servers) > 0`" holds of every `NewLoadBalancer(port, servers)`, and from a load
balancer `lb` that satisfies it (pool length `≤ 2^62`, any liveness) the call
`getNextAvailableServer` returns and its result state satisfies it again; a call
that returns `nil` leaves the cursor as it was, and the state `ServeProxy` leaves is
the one its `getNextAvailableServer` call left. -/
theorem cursor_invariant (lb : LoadBalancer) (hlen : lb.servers.length ≤ 2 ^ 62)
    (hinv : CursorInv lb) :
    (∀ port servers, CursorInv (NewLoadBalancer port servers) ∧
      (servers ≠ [] → InRange (NewLoadBalancer port servers))) ∧
    ∃ sel, getNextAvailableServer lb = Except.ok sel ∧ CursorInv sel.lb ∧
      (sel.server = none → sel.lb.roundRobinCount = lb.roundRobinCount) ∧
      ∀ (W R : Type) (w : W) (r : R),
        ∃ effects, ServeProxy lb w r = Except.ok (sel.lb, effects) := by
  constructor
  · intro port servers
    have h : CursorInv (NewLoadBalancer port servers) := by
      intro hpos
      exact ⟨le_refl _, Int.ofNat_lt.mpr hpos⟩
    refine ⟨h, fun hne => h ?_⟩
    exact List.length_pos.mpr hne
  · obtain ⟨sel, hsel, hinv', _⟩ := getNext_total lb hlen hinv
    refine ⟨sel, hsel, hinv', ?_, fun W R w r => ServeProxy_state lb w r sel hsel⟩
    intro hnone
    rw [(getNext_frame lb sel hsel).2.2 hnone]

theorem cursor_invariant_witness :
    CursorInv { servers := poolDeadA, roundRobinCount := 2, port := "8080" } ∧
    ((∀ port servers, CursorInv (NewLoadBalancer port servers) ∧
      (servers ≠ [] → InRange (NewLoadBalancer port servers))) ∧
    ∃ sel, getNextAvailableServer { servers := poolDeadA, roundRobinCount := 2, port := "8080" }
        = Except.ok sel ∧ CursorInv sel.lb ∧
      (sel.server = none → sel.lb.roundRobinCount = 2) ∧
      ∀ (W R : Type) (w : W) (r : R),
        ∃ effects, ServeProxy { servers := poolDeadA, roundRobinCount := 2, port := "8080" }
          w r = Except.ok (sel.lb, effects)) :=
  ⟨by decide,
   cursor_invariant { servers := poolDeadA, roundRobinCount := 2, port := "8080" }
     (by decide) (by decide)⟩

theorem callsFrom_empty (c : Int) (port : String) (k : Nat) :
    callsFrom k { servers := [], roundRobinCount := c, port := port }
      = Except.ok
          (List.replicate k
            { server := none,
              lb := { servers := [], roundRobinCount := c, port := port },
              probes := [] },
           { servers := [], roundRobinCount := c, port := port }) := by
  induction k with
  | zero => rfl
  | succ k ih =>
    unfold callsFrom
    simp only [getNextAvailableServer, List.length_nil, if_true]
    rw [ih]
    rfl

/-- C5 (empty-pool signal). For the empty pool and any cursor value, each of `k`
consecutive `getNextAvailableServer` calls, for every `k`, returns `nil` without a
panic (no modulo by zero is evaluated) and without probing any target, and leaves
the load balancer unchanged. -/
theorem empty_pool_signal (c : Int) (port : String) (k : Nat) :
    getNextAvailableServer { servers := [], roundRobinCount := c, port := port }
      = Except.ok
          { server := none,
            lb := { servers := [], roundRobinCount := c, port := port },
            probes := [] } ∧
    callsFrom k { servers := [], roundRobinCount := c, port := port }
      = Except.ok
          (List.replicate k
            { server := none,
              lb := { servers := [], roundRobinCount := c, port := port },
              probes := [] },
           { servers := [], roundRobinCount := c, port := port }) :=
  ⟨rfl, callsFrom_empty c port k⟩

/-- C6 (liveness skip). For a pool (length `≤ 2^62`) with a fixed liveness assignment
having `k ≥ 1` live targets and an in-range cursor, `k + 1` consecutive
`getNextAvailableServer` calls all return a live target; the first `k` select the live
pool positions in cyclic configured order from the cursor, which is each live position
exactly once, the `(k+1)`-th selects the first of them again; the pool is unchanged
throughout, dead targets included. -/
theorem liveness_skip (lb : LoadBalancer) (hlen : lb.servers.length ≤ 2 ^ 62)
    (hcur : InRange lb) (hk : 0 < (alivePositions lb.servers).length) :
    ∃ sels final,
      callsFrom ((alivePositions lb.servers).length + 1) lb = Except.ok (sels, final) ∧
      (∀ sel, sel ∈ sels → ∃ s, sel.server = some s ∧ s.IsAlive = true) ∧
      sels.map Selection.position
        = (aliveCycle lb.servers lb.roundRobinCount.toNat
            ++ (aliveCycle lb.servers lb.roundRobinCount.toNat).take 1).map
            (fun (j : Nat) => some (j : Int)) ∧
      sels.map Selection.server
        = (aliveCycle lb.servers lb.roundRobinCount.toNat
            ++ (aliveCycle lb.servers lb.roundRobinCount.toNat).take 1).map
            (fun j => lb.servers[j]?) ∧
      (aliveCycle lb.servers lb.roundRobinCount.toNat).Perm (alivePositions lb.servers) ∧
      (aliveCycle lb.servers lb.roundRobinCount.toNat).Nodup ∧
      (∀ sel, sel ∈ sels → sel.lb.servers = lb.servers) ∧
      final.servers = lb.servers := by
  have hne := aliveCycle_ne_nil lb hk lb.roundRobinCount.toNat
  obtain ⟨sels, final, hcalls, hp, hs, ha, hfr, hfs⟩ := callsFrom_round lb hlen hcur hne
  rw [(aliveCycle_perm lb.servers lb.roundRobinCount.toNat).length_eq] at hcalls
  exact ⟨sels, final, hcalls, ha, hp, hs, aliveCycle_perm _ _, aliveCycle_nodup _ _, hfr, hfs⟩

theorem liveness_skip_witness :
    InRange { servers := poolDeadA, roundRobinCount := 0, port := "8080" } ∧
    0 < (alivePositions poolDeadA).length ∧
    ∃ sels final,
      callsFrom 3 { servers := poolDeadA, roundRobinCount := 0, port := "8080" }
        = Except.ok (sels, final) ∧
      (∀ sel, sel ∈ sels → ∃ s, sel.server = some s ∧ s.IsAlive = true) ∧
      sels.map Selection.position = [some 1, some 2, some 1] ∧
      sels.map Selection.server
        = [some { Address := "http://b", IsAlive := true },
           some { Address := "http://c", IsAlive := true },
           some { Address := "http://b", IsAlive := true }] ∧
      (aliveCycle poolDeadA 0).Perm (alivePositions poolDeadA) ∧
      (aliveCycle poolDeadA 0).Nodup ∧
      (∀ sel, sel ∈ sels → sel.lb.servers = poolDeadA) ∧
      final.servers = poolDeadA :=
  ⟨by decide, by decide,
   liveness_skip { servers := poolDeadA, roundRobinCount := 0, port := "8080" }
     (by decide) (by decide) (by decide)⟩

/-- C7 (no consecutive repeats). For a pool (length `≤ 2^62`) whose targets are all
alive, with an in-range cursor `c` and not exactly one target, two consecutive
`getNextAvailableServer` calls select the pool positions `c` and `(c + 1) mod n`, which
differ. -/
theorem no_consecutive_repeats (lb : LoadBalancer) (hlen : lb.servers.length ≤ 2 ^ 62)
    (hcur : InRange lb) (hall : ∀ s, s ∈ lb.servers → s.IsAlive = true)
    (hne1 : lb.servers.length ≠ 1) :
    ∃ sel₁ sel₂ final,
      callsFrom 2 lb = Except.ok ([sel₁, sel₂], final) ∧
      sel₁.position = some ((lb.roundRobinCount.toNat : Nat) : Int) ∧
      sel₂.position
        = some ((((lb.roundRobinCount.toNat + 1) % lb.servers.length : Nat)) : Int) ∧
      sel₁.server = lb.servers[lb.roundRobinCount.toNat]? ∧
      sel₂.server = lb.servers[(lb.roundRobinCount.toNat + 1) % lb.servers.length]? ∧
      sel₁.position ≠ sel₂.position := by
  have hc := hcur.toNat_lt
  have hn2 : 2 ≤ lb.servers.length := by omega
  have hA := aliveCycle_all_alive lb.servers hall lb.roundRobinCount.toNat
  have hne : aliveCycle lb.servers lb.roundRobinCount.toNat ≠ [] := by
    rw [hA]
    intro h
    have := congrArg List.length h
    rw [cyclicFrom_length, List.length_nil] at this
    omega
  obtain ⟨sels, final, hcalls, hlen', _, _, _, _, hsel⟩ := callsFrom_cycle 2 lb hlen hcur hne
  obtain ⟨a, ha, j₁, s₁, hh₁, hs₁, _, hv₁, hp₁, _⟩ := hsel 0 (by omega)
  obtain ⟨b, hb, j₂, s₂, hh₂, hs₂, _, hv₂, hp₂, _⟩ := hsel 1 (by omega)
  have hj₁ : j₁ = lb.roundRobinCount.toNat := by
    rw [hA, List.rotate_zero, List.head?_eq_getElem?,
      cyclicFrom_getElem? _ _ 0 (by omega), Nat.add_zero, Nat.mod_eq_of_lt hc] at hh₁
    exact (Option.some.inj hh₁).symm
  have hj₂ : j₂ = (lb.roundRobinCount.toNat + 1) % lb.servers.length := by
    rw [hA, List.head?_rotate (by rw [cyclicFrom_length]; omega),
      cyclicFrom_getElem? _ _ 1 (by omega)] at hh₂
    exact (Option.some.inj hh₂).symm
  subst hj₁ hj₂
  have hsels : sels = [a, b] := by
    match sels, hlen', ha, hb with
    | [x, y], _, hx, hy =>
      simp only [List.getElem?_cons_zero, List.getElem?_cons_succ, Option.some.injEq] at hx hy
      rw [hx, hy]
  subst hsels
  refine ⟨a, b, final, hcalls, hp₁, hp₂, by rw [hv₁, hs₁], by rw [hv₂, hs₂], ?_⟩
  rw [hp₁, hp₂]
  intro h
  have h' : lb.roundRobinCount.toNat = (lb.roundRobinCount.toNat + 1) % lb.servers.length := by
    exact_mod_cast Option.some.inj h
  by_cases hw : lb.roundRobinCount.toNat + 1 < lb.servers.length
  · rw [Nat.mod_eq_of_lt hw] at h'
    omega
  · have he : lb.roundRobinCount.toNat + 1 = lb.servers.length := by omega
    rw [he, Nat.mod_self] at h'
    omega

theorem no_consecutive_repeats_witness :
    InRange { servers := poolABC, roundRobinCount := 2, port := "8080" } ∧
    ∃ sel₁ sel₂ final,
      callsFrom 2 { servers := poolABC, roundRobinCount := 2, port := "8080" }
        = Except.ok ([sel₁, sel₂], final) ∧
      sel₁.position = some 2 ∧
      sel₂.position = some 0 ∧
      sel₁.server = some { Address := "http://c", IsAlive := true } ∧
      sel₂.server = some { Address := "http://a", IsAlive := true } ∧
      sel₁.position ≠ sel₂.position :=
  ⟨by decide,
   no_consecutive_repeats { servers := poolABC, roundRobinCount := 2, port := "8080" }
     (by decide) (by decide) (by decide) (by decide)⟩

/-! ## Dispatch -/

theorem ServeProxy_of_some {W R : Type} (lb : LoadBalancer) (w : W) (r : R)
    (sel : Selection) (t : Server) (h : getNextAvailableServer lb = Except.ok sel)
    (ht : sel.server = some t) :
    ServeProxy lb w r
      = Except.ok (sel.lb,
          [Effect.printf "Forwarding request to address %q\n" [t.Address],
           Effect.serve t w r]) := by
  unfold ServeProxy
  rw [h]
  obtain ⟨server, lb', probes⟩ := sel
  cases ht
  rfl

theorem ServeProxy_of_none {W R : Type} (lb : LoadBalancer) (w : W) (r : R)
    (sel : Selection) (h : getNextAvailableServer lb = Except.ok sel)
    (ht : sel.server = none) :
    ServeProxy lb w r
      = Except.ok (sel.lb,
          [Effect.httpError w "No available server" StatusServiceUnavailable]) := by
  unfold ServeProxy
  rw [h]
  obtain ⟨server, lb', probes⟩ := sel
  cases ht
  rfl

/-- C8 (dispatch delegates). For a load balancer (pool length `≤ 2^62`, cursor in range)
with at least one live target, `ServeProxy(w, r)` leaves the state its
`getNextAvailableServer` call leaves, and its collaborator calls are the log line
followed by one `Serve(w, r)` on the target `t` that `getNextAvailableServer` returns
for the pre-call state, with the same `w` and `r`: exactly one `Serve` call, and no
`http.Error` reply. -/
theorem ServeProxy_delegates {W R : Type} (lb : LoadBalancer) (w : W) (r : R)
    (hlen : lb.servers.length ≤ 2 ^ 62) (hcur : InRange lb)
    (hlive : ∃ s, s ∈ lb.servers ∧ s.IsAlive = true) :
    ∃ sel t effects, getNextAvailableServer lb = Except.ok sel ∧ sel.server = some t ∧
      ServeProxy lb w r = Except.ok (sel.lb, effects) ∧
      effects = [Effect.printf "Forwarding request to address %q\n" [t.Address],
                 Effect.serve t w r] ∧
      effects.filter Effect.isServe = [Effect.serve t w r] ∧
      effects.filter Effect.isHttpError = [] := by
  obtain ⟨i, j, sel, _, _, ha, _, hsel, hserver, _, _⟩ :=
    first_alive_select lb hlen hcur hlive
  obtain ⟨t, ht, _⟩ := aliveAt_true_get lb j ha
  rw [ht] at hserver
  exact ⟨sel, t, _, hsel, hserver, ServeProxy_of_some lb w r sel t hsel hserver, rfl, rfl, rfl⟩

theorem ServeProxy_delegates_witness :
    InRange { servers := poolDeadA, roundRobinCount := 0, port := "8080" } ∧
    ∃ sel t effects,
      getNextAvailableServer { servers := poolDeadA, roundRobinCount := 0, port := "8080" }
        = Except.ok sel ∧ sel.server = some t ∧
      ServeProxy { servers := poolDeadA, roundRobinCount := 0, port := "8080" }
        "writer" "GET /" = Except.ok (sel.lb, effects) ∧
      effects = [Effect.printf "Forwarding request to address %q\n" [t.Address],
                 Effect.serve t "writer" "GET /"] ∧
      effects.filter Effect.isServe = [Effect.serve t "writer" "GET /"] ∧
      effects.filter Effect.isHttpError = [] :=
  ⟨by decide,
   ServeProxy_delegates { servers := poolDeadA, roundRobinCount := 0, port := "8080" }
     "writer" "GET /" (by decide) (by decide)
     ⟨_, List.mem_cons_of_mem _ (List.mem_cons_self _ _), rfl⟩⟩

/-- C9 (unavailability short-circuits). Whenever `getNextAvailableServer` returns `nil`,
`ServeProxy(w, r)` makes exactly one collaborator call, the plain-text reply
`http.Error(w, "No available server", 503)`, calls no target's `Serve`, and leaves the
load balancer, cursor included, unchanged. -/
theorem ServeProxy_unavailable {W R : Type} (lb : LoadBalancer) (w : W) (r : R)
    (sel : Selection) (hsel : getNextAvailableServer lb = Except.ok sel)
    (hnone : sel.server = none) :
    ∃ after effects, ServeProxy lb w r = Except.ok (after, effects) ∧
      effects = [Effect.httpError w "No available server" 503] ∧
      effects.filter Effect.isServe = [] ∧
      after.roundRobinCount = lb.roundRobinCount ∧ after = lb := by
  have hlb : sel.lb = lb := (getNext_frame lb sel hsel).2.2 hnone
  refine ⟨sel.lb, _, ServeProxy_of_none lb w r sel hsel hnone, rfl, rfl, ?_, hlb⟩
  rw [hlb]

theorem ServeProxy_unavailable_witness :
    ∃ after effects,
      ServeProxy { servers := poolDead, roundRobinCount := 1, port := "8080" }
        "writer" "GET /" = Except.ok (after, effects) ∧
      effects = [Effect.httpError "writer" "No available server" 503] ∧
      effects.filter Effect.isServe = [] ∧
      after.roundRobinCount = 1 ∧
      after = { servers := poolDead, roundRobinCount := 1, port := "8080" } :=
  ServeProxy_unavailable { servers := poolDead, roundRobinCount := 1, port := "8080" }
    "writer" "GET /"
    { server := none,
      lb := { servers := poolDead, roundRobinCount := 1, port := "8080" },
      probes := [1, 0] }
    rfl rfl

theorem getNext_single (a : Server) (port : String) (ha : a.IsAlive = true) :
    getNextAvailableServer { servers := [a], roundRobinCount := 0, port := port }
      = Except.ok
          { server := some a,
            lb := { servers := [a], roundRobinCount := 0, port := port },
            probes := [0] } := by
  have h := getNext_select { servers := [a], roundRobinCount := 0, port := port }
    (by simp) ⟨le_refl _, by simp⟩ 0 (by simp) (by simpa [aliveAt] using ha) (by simp)
  rw [h]
  simp [visited]

/-- C10 (single-target degeneracy). For the pool `[A]` with `A` alive and cursor 0, each
of `k` consecutive `getNextAvailableServer` calls, for every `k`, returns `A` (probing
position 0 only) and leaves the cursor at 0. -/
theorem single_target_degeneracy (a : Server) (port : String) (ha : a.IsAlive = true)
    (k : Nat) :
    callsFrom k { servers := [a], roundRobinCount := 0, port := port }
      = Except.ok
          (List.replicate k
            { server := some a,
              lb := { servers := [a], roundRobinCount := 0, port := port },
              probes := [0] },
           { servers := [a], roundRobinCount := 0, port := port }) := by
  induction k with
  | zero => rfl
  | succ k ih =>
    unfold callsFrom
    rw [getNext_single a port ha]
    simp only [ih]
    rfl

theorem single_target_degeneracy_witness :
    callsFrom 5
        { servers := [{ Address := "http://a", IsAlive := true }],
          roundRobinCount := 0, port := "8080" }
      = Except.ok
          (List.replicate 5
            { server := some { Address := "http://a", IsAlive := true },
              lb := { servers := [{ Address := "http://a", IsAlive := true }],
                      roundRobinCount := 0, port := "8080" },
              probes := [0] },
           { servers := [{ Address := "http://a", IsAlive := true }],
             roundRobinCount := 0, port := "8080" }) :=
  single_target_degeneracy { Address := "http://a", IsAlive := true } "8080" rfl 5

/-! ## Bounded scan -/

theorem scan_offset_inj (n c t t' : Nat) (ht : t < n) (ht' : t' < n)
    (h : (c + t) % n = (c + t') % n) : t = t' := by
  have h1 : t ≡ t' [MOD n] := Nat.ModEq.add_left_cancel' c h
  have h2 : t % n = t' % n := h1
  rwa [Nat.mod_eq_of_lt ht, Nat.mod_eq_of_lt ht'] at h2

theorem visited_nodup (lb : LoadBalancer) (c m : Nat) (hm : m ≤ lb.servers.length) :
    (visited lb c 0 m).Nodup := by
  unfold visited
  apply List.Nodup.map_on _ (List.nodup_range' 0 m)
  intro x hx y hy hxy
  rw [List.mem_range'_1] at hx hy
  exact scan_offset_inj lb.servers.length c x y (by omega) (by omega) (by exact_mod_cast hxy)

theorem visited_length (lb : LoadBalancer) (c i m : Nat) : (visited lb c i m).length = m := by
  unfold visited
  rw [List.length_map, List.length_range']

theorem visited_mem (lb : LoadBalancer) (c i m : Nat) (hpos : 0 < lb.servers.length)
    (p : Int) (hp : p ∈ visited lb c i m) : 0 ≤ p ∧ p < (lb.servers.length : Int) := by
  unfold visited at hp
  rw [List.mem_map] at hp
  obtain ⟨t, _, rfl⟩ := hp
  exact ⟨Int.natCast_nonneg _, Int.ofNat_lt.mpr (Nat.mod_lt _ hpos)⟩

/-- The probes of one call from an in-range cursor: the first `m ≤ n` positions of the
cyclic scan, all `n` of them when the call returns `nil`. -/
theorem getNext_probes (lb : LoadBalancer) (hlen : lb.servers.length ≤ 2 ^ 62)
    (hcur : InRange lb) :
    ∃ sel m, getNextAvailableServer lb = Except.ok sel ∧ m ≤ lb.servers.length ∧
      sel.probes = visited lb lb.roundRobinCount.toNat 0 m ∧
      (sel.server = none → m = lb.servers.length) ∧
      ((∀ s, s ∈ lb.servers → s.IsAlive = false) → sel.server = none) := by
  by_cases hlive : ∃ s, s ∈ lb.servers ∧ s.IsAlive = true
  · obtain ⟨i, hi, ha, hd⟩ := exists_least_alive lb hcur hlive
    obtain ⟨s, hs, _⟩ := aliveAt_true_get lb _ ha
    refine ⟨_, i + 1, getNext_select lb hlen hcur i hi ha hd, by omega, rfl, ?_, ?_⟩
    · intro h
      simp only [hs] at h
      exact absurd h (by simp)
    · intro hdead
      obtain ⟨s', hs', ha'⟩ := hlive
      rw [hdead s' hs'] at ha'
      exact absurd ha' (by simp)
  · have hscan : ∀ t, t < lb.servers.length → aliveAt lb.servers
        ((lb.roundRobinCount.toNat + t) % lb.servers.length) = false := by
      intro t _
      cases hb : aliveAt lb.servers
          ((lb.roundRobinCount.toNat + t) % lb.servers.length) with
      | false => rfl
      | true => exact absurd (mem_of_aliveAt _ _ hb) hlive
    exact ⟨_, lb.servers.length, getNext_all_dead lb hlen hcur hscan, le_refl _, rfl,
      fun _ => rfl, fun _ => rfl⟩

/-- C11 (bounded scan). For a pool of length `N ≤ 2^62` that is empty or has an
in-range cursor, one `getNextAvailableServer` call returns, the pool positions on
which it called `IsAlive` are pairwise distinct valid positions, so there are at most
`N` of them; when every target is dead it probes exactly `N` positions and returns
`nil`. -/
theorem bounded_scan (lb : LoadBalancer) (hlen : lb.servers.length ≤ 2 ^ 62)
    (hinv : CursorInv lb) :
    ∃ sel, getNextAvailableServer lb = Except.ok sel ∧
      sel.probes.Nodup ∧
      (∀ p, p ∈ sel.probes → 0 ≤ p ∧ p < (lb.servers.length : Int)) ∧
      sel.probes.length ≤ lb.servers.length ∧
      ((∀ s, s ∈ lb.servers → s.IsAlive = false) →
        sel.server = none ∧ sel.probes.length = lb.servers.length) := by
  by_cases hemp : lb.servers.length = 0
  · refine ⟨{ server := none, lb := lb, probes := [] }, ?_, List.nodup_nil, ?_, ?_, ?_⟩
    · unfold getNextAvailableServer
      simp [hemp]
    · intro p hp
      exact absurd hp (List.not_mem_nil _)
    · exact Nat.zero_le _
    · intro _
      exact ⟨rfl, by rw [hemp]; rfl⟩
  · have hcur : InRange lb := hinv (by omega)
    obtain ⟨sel, m, hsel, hm, hpr, hnone, hdead⟩ := getNext_probes lb hlen hcur
    refine ⟨sel, hsel, ?_, ?_, ?_, ?_⟩
    · rw [hpr]
      exact visited_nodup lb _ m hm
    · intro p hp
      rw [hpr] at hp
      exact visited_mem lb _ 0 m (by omega) p hp
    · rw [hpr, visited_length]
      exact hm
    · intro hall
      have hn := hdead hall
      exact ⟨hn, by rw [hpr, visited_length]; exact hnone hn⟩

theorem bounded_scan_witness :
    CursorInv { servers := poolDead, roundRobinCount := 1, port := "8080" } ∧
    ∃ sel, getNextAvailableServer { servers := poolDead, roundRobinCount := 1, port := "8080" }
        = Except.ok sel ∧
      sel.probes.Nodup ∧
      (∀ p, p ∈ sel.probes → 0 ≤ p ∧ p < 2) ∧
      sel.probes.length ≤ 2 ∧
      ((∀ s, s ∈ poolDead → s.IsAlive = false) →
        sel.server = none ∧ sel.probes.length = 2) :=
  ⟨by decide,
   bounded_scan { servers := poolDead, roundRobinCount := 1, port := "8080" }
     (by decide) (by decide)⟩

/-! ## Construction -/

/-- C12 (dispatcher construction). For every port string `p` and every target
sequence `ts`, the empty one included, `NewLoadBalancer(p, ts)` is the load balancer
with port `p`, servers `ts` in the same order and `roundRobinCount` 0; nothing is
validated or rejected. -/
theorem NewLoadBalancer_fields (p : String) (ts : List Server) :
    (NewLoadBalancer p ts).port = p ∧
    (NewLoadBalancer p ts).servers = ts ∧
    (NewLoadBalancer p ts).roundRobinCount = 0 ∧
    NewLoadBalancer p ts = { servers := ts, roundRobinCount := 0, port := p } ∧
    NewLoadBalancer p [] = { servers := [], roundRobinCount := 0, port := p } :=
  ⟨rfl, rfl, rfl, rfl, rfl⟩

/-! ## Rotation -/

theorem cyclicFrom_head? (n x : Nat) (hn : 0 < n) : (cyclicFrom n x).head? = some (x % n) := by
  rw [List.head?_eq_getElem?, cyclicFrom_getElem? n x 0 hn, Nat.add_zero]

theorem cyclicFrom_rotate (n c t : Nat) : (cyclicFrom n c).rotate t = cyclicFrom n (c + t) := by
  unfold cyclicFrom
  rw [List.rotate_rotate]

/-- Consecutive calls on an all-alive pool: call number `t` (from 0) returns
`servers[(c + t) mod n]`, and after `m` calls the cursor is `(c + m) mod n`. -/
theorem callsFrom_all_alive (lb : LoadBalancer) (hlen : lb.servers.length ≤ 2 ^ 62)
    (hcur : InRange lb) (hall : ∀ s, s ∈ lb.servers → s.IsAlive = true) (m : Nat) :
    ∃ sels final, callsFrom m lb = Except.ok (sels, final) ∧ sels.length = m ∧
      (∀ t, t < m → ∃ sel s, sels[t]? = some sel ∧
        lb.servers[(lb.roundRobinCount.toNat + t) % lb.servers.length]? = some s ∧
        sel.server = some s ∧
        sel.position
          = some ((((lb.roundRobinCount.toNat + t) % lb.servers.length : Nat)) : Int) ∧
        sel.lb = { lb with roundRobinCount :=
          (((lb.roundRobinCount.toNat + t + 1) % lb.servers.length : Nat) : Int) }) ∧
      final = { lb with roundRobinCount :=
        (((lb.roundRobinCount.toNat + m) % lb.servers.length : Nat) : Int) } := by
  have hc := hcur.toNat_lt
  have hpos : 0 < lb.servers.length := by omega
  have hA := aliveCycle_all_alive lb.servers hall
  have hne : aliveCycle lb.servers lb.roundRobinCount.toNat ≠ [] := by
    rw [hA]
    intro h
    have := congrArg List.length h
    rw [cyclicFrom_length, List.length_nil] at this
    omega
  obtain ⟨sels, final, hcalls, hlen', hfs, hfp, hfr, hfA, hsel⟩ :=
    callsFrom_cycle m lb hlen hcur hne
  refine ⟨sels, final, hcalls, hlen', ?_, ?_⟩
  · intro t ht
    obtain ⟨sel, hget, j, s, hhead, hs, _, hserver, hposn, hlb⟩ := hsel t ht
    rw [hA, cyclicFrom_rotate, cyclicFrom_head? _ _ hpos] at hhead
    have hj := Option.some.inj hhead
    subst hj
    refine ⟨sel, s, hget, hs, hserver, hposn, ?_⟩
    rw [hlb, Nat.mod_add_mod]
  · rw [hA, hA, cyclicFrom_rotate] at hfA
    have hh := congrArg List.head? hfA
    rw [cyclicFrom_head? _ _ hpos, cyclicFrom_head? _ _ hpos,
      Nat.mod_eq_of_lt (by rw [← hfs]; exact hfr.toNat_lt)] at hh
    have hcf := Option.some.inj hh
    have hfc := hfr.cursor_eq
    rw [hcf] at hfc
    obtain ⟨fs, fc, fp⟩ := final
    simp only at hfs hfp hfc
    rw [hfs, hfp, hfc]

/-- C17 (rotation from an arbitrary cursor). For an all-alive pool of `n ≥ 1` targets
(`n ≤ 2^62`) and an in-range cursor `c`, in a run of `m` consecutive
`getNextAvailableServer` calls the `k`-th call (`1 ≤ k ≤ m`) returns
`servers[(c + k - 1) mod n]` and leaves the cursor at `(c + k) mod n`; the run ends with
the cursor at `(c + m) mod n`, and a run of `n` calls ends in the state it started
from. -/
theorem rotation_from_cursor (lb : LoadBalancer) (hlen : lb.servers.length ≤ 2 ^ 62)
    (hcur : InRange lb) (hall : ∀ s, s ∈ lb.servers → s.IsAlive = true) (m : Nat) :
    (∃ sels final, callsFrom m lb = Except.ok (sels, final) ∧
      (∀ k, 1 ≤ k → k ≤ m → ∃ sel, sels[k - 1]? = some sel ∧
        sel.server ≠ none ∧
        sel.server = lb.servers[(lb.roundRobinCount.toNat + k - 1) % lb.servers.length]? ∧
        sel.lb.roundRobinCount
          = (((lb.roundRobinCount.toNat + k) % lb.servers.length : Nat) : Int)) ∧
      final.roundRobinCount
        = (((lb.roundRobinCount.toNat + m) % lb.servers.length : Nat) : Int)) ∧
    ∃ sels, callsFrom lb.servers.length lb = Except.ok (sels, lb) := by
  constructor
  · obtain ⟨sels, final, hcalls, _, hsel, hfinal⟩ := callsFrom_all_alive lb hlen hcur hall m
    refine ⟨sels, final, hcalls, ?_, by rw [hfinal]⟩
    intro k hk1 hkm
    obtain ⟨sel, s, hget, hs, hserver, _, hlb⟩ := hsel (k - 1) (by omega)
    have e1 : lb.roundRobinCount.toNat + (k - 1) = lb.roundRobinCount.toNat + k - 1 := by omega
    have e2 : lb.roundRobinCount.toNat + (k - 1) + 1 = lb.roundRobinCount.toNat + k := by omega
    rw [e1] at hs
    rw [e2] at hlb
    refine ⟨sel, hget, by rw [hserver]; simp, by rw [hserver, hs], by rw [hlb]⟩
  · obtain ⟨sels, final, hcalls, _, _, hfinal⟩ :=
      callsFrom_all_alive lb hlen hcur hall lb.servers.length
    refine ⟨sels, ?_⟩
    rw [hcalls, hfinal, Nat.add_mod_right, Nat.mod_eq_of_lt hcur.toNat_lt, ← hcur.cursor_eq]

theorem rotation_from_cursor_witness :
    InRange { servers := poolABC, roundRobinCount := 1, port := "8080" } ∧
    ((∃ sels final,
      callsFrom 5 { servers := poolABC, roundRobinCount := 1, port := "8080" }
        = Except.ok (sels, final) ∧
      (∀ k, 1 ≤ k → k ≤ 5 → ∃ sel, sels[k - 1]? = some sel ∧
        sel.server ≠ none ∧
        sel.server = poolABC[(1 + k - 1) % 3]? ∧
        sel.lb.roundRobinCount = (((1 + k) % 3 : Nat) : Int)) ∧
      final.roundRobinCount = 0) ∧
    ∃ sels, callsFrom 3 { servers := poolABC, roundRobinCount := 1, port := "8080" }
      = Except.ok (sels, { servers := poolABC, roundRobinCount := 1, port := "8080" })) :=
  ⟨by decide,
   rotation_from_cursor { servers := poolABC, roundRobinCount := 1, port := "8080" }
     (by decide) (by decide) (by decide) 5⟩

/-! ## Concurrent calls -/

theorem runAlone_returned (fuel : Nat) (lb : LoadBalancer) (r : Option Server) :
    runAlone fuel (lb, Call.returned r) = (lb, Call.returned r) := by
  induction fuel with
  | zero => rfl
  | succ f ih => exact ih

theorem runAlone_panicked (fuel : Nat) (lb : LoadBalancer) (p : Panic) :
    runAlone fuel (lb, Call.panicked p) = (lb, Call.panicked p) := by
  induction fuel with
  | zero => rfl
  | succ f ih => exact ih

theorem runAlone_succ (fuel : Nat) (lb : LoadBalancer) (c : Call) :
    runAlone (fuel + 1) (lb, c) = runAlone fuel (Call.step lb c) := rfl

/-- Run alone, the steps of the loop compute what `scanLoop` computes. -/
theorem runAlone_loop (lb : LoadBalancer) (n : Nat) :
    ∀ rem i e, i + rem = n →
      runAlone (2 * rem + 2 + e) (lb, Call.loopHead n i) = outcome lb (scanLoop lb n rem i) := by
  intro rem
  induction rem with
  | zero =>
    intro i e hi
    have hlt : ¬ i < n := by omega
    rw [show 2 * 0 + 2 + e = (e + 1) + 1 by omega, runAlone_succ]
    simp only [Call.step, hlt, if_false]
    rw [runAlone_returned]
    rfl
  | succ rem ih =>
    intro i e hi
    have hlt : i < n := by omega
    rw [show 2 * (rem + 1) + 2 + e = (2 * rem + 2 + e + 1) + 1 by omega, runAlone_succ]
    simp only [Call.step, hlt, if_true]
    unfold scanLoop
    cases hidx : goMod (wrapInt (lb.roundRobinCount + (i : Int))) (n : Int) with
    | error err =>
      simp only []
      rw [runAlone_panicked]
      rfl
    | ok index =>
      simp only []
      rw [runAlone_succ]
      simp only [Call.step]
      cases hsrv : sliceIndex lb.servers index with
      | error err =>
        simp only []
        rw [runAlone_panicked]
        rfl
      | ok server =>
        simp only []
        cases halive : server.IsAlive with
        | true =>
          simp only [if_true]
          rw [show 2 * rem + 2 + e = (2 * rem + 1 + e) + 1 by omega, runAlone_succ]
          simp only [Call.step]
          cases hnext : goMod (wrapInt (index + 1)) (n : Int) with
          | error err =>
            simp only []
            rw [runAlone_panicked]
            rfl
          | ok next =>
            simp only []
            rw [runAlone_returned]
            rfl
        | false =>
          simp only [Bool.false_eq_true, if_false]
          rw [ih (i + 1) e (by omega)]
          cases scanLoop lb n rem (i + 1) with
          | error err => rfl
          | ok sel => rfl

/-- Run alone from its entry, a call of the step model ends in the outcome of
`getNextAvailableServer`. -/
theorem runAlone_getNext (lb : LoadBalancer) (e : Nat) :
    runAlone (2 * lb.servers.length + 3 + e) (lb, Call.enter)
      = outcome lb (getNextAvailableServer lb) := by
  rw [show 2 * lb.servers.length + 3 + e = (2 * lb.servers.length + 2 + e) + 1 by omega,
    runAlone_succ]
  unfold getNextAvailableServer
  by_cases h : lb.servers.length = 0
  · simp only [Call.step, h, if_true]
    rw [runAlone_returned]
    rfl
  · simp only [Call.step, h, if_false]
    exact runAlone_loop lb lb.servers.length lb.servers.length 0 e (by omega)

/-- C16 (unguarded cursor race). The steps of `getNextAvailableServer` (read the cursor,
probe, write the cursor) run alone compute what the method computes, and nothing
orders the steps of two concurrent calls: for the pool of three live targets there is
an interleaving of two calls from cursor 0 in which both return `servers[0]` and the
cursor ends at 1, whereas the same two calls one after the other return `servers[0]`
and `servers[1]` and end at 2.  The selection is not an atomic critical section. -/
theorem unguarded_cursor_race :
    (∀ lb : LoadBalancer, ∃ fuel,
      runAlone fuel (lb, Call.enter) = outcome lb (getNextAvailableServer lb)) ∧
    ∃ servers : List Server, 2 ≤ servers.length ∧
      (∀ s, s ∈ servers → s.IsAlive = true) ∧
      (∃ sel₁ sel₂ final,
        callsFrom 2 (NewLoadBalancer "8080" servers) = Except.ok ([sel₁, sel₂], final) ∧
        sel₁.server = servers[0]? ∧ sel₂.server = servers[1]? ∧
        sel₁.server ≠ sel₂.server ∧ final.roundRobinCount = 2) ∧
      ∃ schedule final s,
        runSchedule schedule (NewLoadBalancer "8080" servers, Call.enter, Call.enter)
          = (final, Call.returned (some s), Call.returned (some s)) ∧
        servers[0]? = some s ∧ final.roundRobinCount = 1 := by
  refine ⟨fun lb => ⟨_, runAlone_getNext lb 0⟩, poolABC, by decide, by decide, ?_, ?_⟩
  · exact ⟨_, _, _, rfl, rfl, rfl, by decide, rfl⟩
  · exact ⟨[Who.first, Who.first, Who.second, Who.second,
            Who.first, Who.first, Who.second, Who.second], _, _, rfl, rfl, rfl⟩

/-! ## Shipped targets -/

/-- C13 (constant-true liveness). For every `simpleServer`, whatever its address and
proxy, `IsAlive()` returns true and leaves the target as it was; so the interface
value of a `simpleServer` answers `IsAlive()` with true. -/
theorem simpleServer_IsAlive {U : Type} (s : simpleServer U) :
    s.IsAlive = (true, s) ∧ s.asServer.IsAlive = true :=
  ⟨rfl, rfl⟩

/-- C14 (target construction), as amended. For every address string, with `urlParse`
standing for `url.Parse`: `newSimpleServer(address)` panics exactly when `urlParse`
returns an error for the address, with that error, and returns no target then;
otherwise it returns a target whose `Address()` is the given address, bound to the
parsed URL.  A target is returned exactly when `urlParse` returns a URL. -/
theorem newSimpleServer_spec {U E : Type} (urlParse : String → Except E U)
    (address : String) :
    (∀ err, newSimpleServer urlParse address = Except.error err ↔
      urlParse address = Except.error err) ∧
    (∀ u, urlParse address = Except.ok u →
      ∃ s, newSimpleServer urlParse address = Except.ok s ∧
        s.Address = (address, s) ∧ s.asServer.Address = address ∧ s.proxy.target = u) ∧
    ((∃ s, newSimpleServer urlParse address = Except.ok s) ↔
      ∃ u, urlParse address = Except.ok u) := by
  unfold newSimpleServer
  cases h : urlParse address with
  | error err =>
    refine ⟨?_, ?_, ?_⟩
    · intro err'
      constructor
      · intro he
        cases he
        rfl
      · intro he
        cases he
        rfl
    · intro u hu
      cases hu
    · constructor
      · rintro ⟨s, hs⟩
        cases hs
      · rintro ⟨u, hu⟩
        cases hu
  | ok u =>
    refine ⟨?_, ?_, ?_⟩
    · intro err
      constructor
      · intro he
        cases he
      · intro he
        cases he
    · intro u' hu
      cases hu
      exact ⟨_, rfl, rfl, rfl, rfl⟩
    · exact ⟨fun _ => ⟨u, rfl⟩, fun _ => ⟨_, rfl⟩⟩

theorem newSimpleServer_spec_witness :
    (∀ (U E : Type) (urlParse : String → Except E U) (err : E),
      urlParse "://bad" = Except.error err →
      newSimpleServer urlParse "://bad" = Except.error err) ∧
    (∀ (U E : Type) (urlParse : String → Except E U) (u : U),
      urlParse "https://www.bing.com" = Except.ok u →
      ∃ s, newSimpleServer urlParse "https://www.bing.com" = Except.ok s ∧
        s.Address = ("https://www.bing.com", s) ∧
        s.asServer.Address = "https://www.bing.com" ∧ s.proxy.target = u) :=
  ⟨fun _ _ urlParse err h => ((newSimpleServer_spec urlParse "://bad").1 err).mpr h,
   fun _ _ urlParse u h => (newSimpleServer_spec urlParse "https://www.bing.com").2.1 u h⟩

/-- C14, counterexample to "panics whenever the address is not a valid URI". The
addresses `"hello world"` and `""` are not valid URIs: neither begins with a scheme,
and the first contains a space.  `url.Parse` returns no error for either (it reads
them as relative paths), and with a parser that returns a URL for them
`newSimpleServer` returns a target carrying the address and does not panic. -/
theorem newSimpleServer_accepts_non_uri :
    uriShaped "hello world" = false ∧ hasScheme "hello world" = false ∧
    uriShaped "" = false ∧
    (∀ (U E : Type) (urlParse : String → Except E U) (u : U),
      urlParse "hello world" = Except.ok u →
      newSimpleServer urlParse "hello world"
          = Except.ok { address := "hello world", proxy := { target := u } } ∧
        ∀ err, newSimpleServer urlParse "hello world" ≠ Except.error err) ∧
    (∀ (U E : Type) (urlParse : String → Except E U) (u : U),
      urlParse "" = Except.ok u →
      newSimpleServer urlParse ""
          = Except.ok { address := "", proxy := { target := u } } ∧
        ∀ err, newSimpleServer urlParse "" ≠ Except.error err) := by
  refine ⟨by decide, by decide, by decide, ?_, ?_⟩
  · intro U E urlParse u hu
    unfold newSimpleServer
    rw [hu]
    exact ⟨rfl, fun err h => by cases h⟩
  · intro U E urlParse u hu
    unfold newSimpleServer
    rw [hu]
    exact ⟨rfl, fun err h => by cases h⟩

/-! ## Frame -/

theorem ServeProxy_inv {W R : Type} (lb after : LoadBalancer) (w : W) (r : R)
    (effects : List (Effect W R)) (h : ServeProxy lb w r = Except.ok (after, effects)) :
    ∃ sel, getNextAvailableServer lb = Except.ok sel ∧ after = sel.lb := by
  unfold ServeProxy at h
  cases hsel : getNextAvailableServer lb with
  | error e =>
    rw [hsel] at h
    exact absurd h (by simp)
  | ok sel =>
    rw [hsel] at h
    refine ⟨sel, rfl, ?_⟩
    obtain ⟨server, lb', probes⟩ := sel
    cases server with
    | none =>
      simp only [Except.ok.injEq, Prod.mk.injEq] at h
      exact h.1.symm
    | some t =>
      simp only [Except.ok.injEq, Prod.mk.injEq] at h
      exact h.1.symm

/-- C15 (static pool frame). From every state, under every liveness assignment, a
`getNextAvailableServer` call and a `ServeProxy` call that return leave `servers` and
`port` exactly as they were, so the state afterwards differs from the state before in
`roundRobinCount` at most; and from a state that satisfies the cursor invariant (pool
length `≤ 2^62`) both calls do return. -/
theorem static_pool_frame (lb : LoadBalancer) :
    (∀ sel, getNextAvailableServer lb = Except.ok sel →
      sel.lb.servers = lb.servers ∧ sel.lb.port = lb.port ∧
      sel.lb = { lb with roundRobinCount := sel.lb.roundRobinCount }) ∧
    (∀ (W R : Type) (w : W) (r : R) (after : LoadBalancer) (effects : List (Effect W R)),
      ServeProxy lb w r = Except.ok (after, effects) →
      after.servers = lb.servers ∧ after.port = lb.port ∧
      after = { lb with roundRobinCount := after.roundRobinCount }) ∧
    (lb.servers.length ≤ 2 ^ 62 → CursorInv lb →
      ∃ sel, getNextAvailableServer lb = Except.ok sel ∧
        ∀ (W R : Type) (w : W) (r : R),
          ∃ effects, ServeProxy lb w r = Except.ok (sel.lb, effects)) := by
  have key : ∀ sel, getNextAvailableServer lb = Except.ok sel →
      sel.lb.servers = lb.servers ∧ sel.lb.port = lb.port ∧
      sel.lb = { lb with roundRobinCount := sel.lb.roundRobinCount } := by
    intro sel hsel
    obtain ⟨h1, h2, _⟩ := getNext_frame lb sel hsel
    refine ⟨h1, h2, ?_⟩
    rw [← h1, ← h2]
  refine ⟨key, ?_, ?_⟩
  · intro W R w r after effects h
    obtain ⟨sel, hsel, rfl⟩ := ServeProxy_inv lb after w r effects h
    exact key sel hsel
  · intro hlen hinv
    obtain ⟨sel, hsel, _, _⟩ := getNext_total lb hlen hinv
    exact ⟨sel, hsel, fun W R w r => ServeProxy_state lb w r sel hsel⟩

theorem static_pool_frame_witness :
    ∃ sel, getNextAvailableServer { servers := poolDeadA, roundRobinCount := 2, port := "8080" }
        = Except.ok sel ∧
      sel.lb.servers = poolDeadA ∧ sel.lb.port = "8080" ∧
      ∀ (W R : Type) (w : W) (r : R),
        ∃ effects, ServeProxy { servers := poolDeadA, roundRobinCount := 2, port := "8080" }
          w r = Except.ok (sel.lb, effects) := by
  obtain ⟨sel, hsel, hserve⟩ :=
    (static_pool_frame { servers := poolDeadA, roundRobinCount := 2, port := "8080" }).2.2
      (by decide) (by decide)
  obtain ⟨h1, h2, _⟩ :=
    (static_pool_frame { servers := poolDeadA, roundRobinCount := 2, port := "8080" }).1
      sel hsel
  exact ⟨sel, hsel, h1, h2, hserve⟩

/-! ## Reachable states -/

/-- Every reachable state has the configured pool and port and satisfies the cursor
invariant. -/
theorem reachable_inv (port : String) (servers : List Server)
    (hlen : servers.length ≤ 2 ^ 62) (lb : LoadBalancer)
    (h : Reachable port servers lb) :
    lb.servers = servers ∧ lb.port = port ∧ CursorInv lb := by
  induction h with
  | init =>
    refine ⟨rfl, rfl, ?_⟩
    intro hpos
    exact ⟨le_refl _, Int.ofNat_lt.mpr hpos⟩
  | next _ hsel ih =>
    obtain ⟨hs, hp, hinv⟩ := ih
    obtain ⟨sel', hsel', hinv', _⟩ := getNext_total _ (by rw [hs]; exact hlen) hinv
    rw [hsel] at hsel'
    cases hsel'
    obtain ⟨h1, h2, _⟩ := getNext_frame _ _ hsel
    exact ⟨by rw [h1, hs], by rw [h2, hp], hinv'⟩
  | serve _ hserve ih =>
    obtain ⟨hs, hp, hinv⟩ := ih
    obtain ⟨sel, hsel, rfl⟩ := ServeProxy_inv _ _ _ _ _ hserve
    obtain ⟨sel', hsel', hinv', _⟩ := getNext_total _ (by rw [hs]; exact hlen) hinv
    rw [hsel] at hsel'
    cases hsel'
    obtain ⟨h1, h2, _⟩ := getNext_frame _ _ hsel
    exact ⟨by rw [h1, hs], by rw [h2, hp], hinv'⟩

/-- The index computed at loop variable `i` from an in-range cursor is a valid
position, and the slice access at it succeeds. -/
theorem scan_index_safe (lb : LoadBalancer) (hlen : lb.servers.length ≤ 2 ^ 62)
    (hcur : InRange lb) (i : Nat) (hi : i < lb.servers.length) :
    ∃ index s,
      goMod (wrapInt (lb.roundRobinCount + (i : Int))) (lb.servers.length : Int)
        = Except.ok index ∧
      0 ≤ index ∧ index < (lb.servers.length : Int) ∧
      sliceIndex lb.servers index = Except.ok s := by
  have hc := hcur.toNat_lt
  have hpos : (lb.roundRobinCount.toNat + i) % lb.servers.length < lb.servers.length :=
    Nat.mod_lt _ (by omega)
  refine ⟨_, lb.servers[(lb.roundRobinCount.toNat + i) % lb.servers.length], ?_,
    Int.natCast_nonneg _, Int.ofNat_lt.mpr hpos,
    sliceIndex_nat _ _ _ (List.getElem?_eq_getElem hpos)⟩
  rw [hcur.cursor_eq]
  exact goMod_index _ _ _ hlen hc hi

/-- C18 (index safety). For a non-empty pool (length `n ≤ 2^62`) and a cursor with
`0 ≤ roundRobinCount < n`, every index `(roundRobinCount + i) % n` the scan can compute,
`i < n`, lies in `0 .. n-1` and the access `lb.servers[index]` succeeds, and the call
returns without a panic; every state reachable from `NewLoadBalancer` over this pool
has such a cursor, so no call from it panics. -/
theorem index_safety (lb : LoadBalancer) (hlen : lb.servers.length ≤ 2 ^ 62)
    (hcur : InRange lb) :
    (∀ i : Nat, i < lb.servers.length → ∃ index s,
      goMod (wrapInt (lb.roundRobinCount + (i : Int))) (lb.servers.length : Int)
        = Except.ok index ∧
      0 ≤ index ∧ index < (lb.servers.length : Int) ∧
      sliceIndex lb.servers index = Except.ok s) ∧
    (∃ sel, getNextAvailableServer lb = Except.ok sel) ∧
    ∀ port after, Reachable port lb.servers after →
      InRange after ∧ after.servers = lb.servers ∧
      (∃ sel, getNextAvailableServer after = Except.ok sel) ∧
      ∀ index len,
        getNextAvailableServer after ≠ Except.error (Panic.indexOutOfRange index len) := by
  have hpos : 0 < lb.servers.length := by
    have := hcur.toNat_lt
    omega
  refine ⟨fun i hi => scan_index_safe lb hlen hcur i hi, ?_, ?_⟩
  · obtain ⟨sel, hsel, _⟩ := getNext_total lb hlen (fun _ => hcur)
    exact ⟨sel, hsel⟩
  · intro port after hreach
    obtain ⟨hs, _, hinv⟩ := reachable_inv port lb.servers hlen after hreach
    obtain ⟨sel, hsel, _⟩ := getNext_total after (by rw [hs]; exact hlen) hinv
    refine ⟨hinv (by rw [hs]; exact hpos), hs, ⟨sel, hsel⟩, ?_⟩
    intro index len h
    rw [hsel] at h
    cases h

theorem index_safety_witness :
    InRange { servers := poolDeadA, roundRobinCount := 2, port := "8080" } ∧
    ((∀ i : Nat, i < 3 → ∃ index s,
      goMod (wrapInt ((2 : Int) + (i : Int))) ((3 : Nat) : Int) = Except.ok index ∧
      0 ≤ index ∧ index < ((3 : Nat) : Int) ∧
      sliceIndex poolDeadA index = Except.ok s) ∧
    (∃ sel, getNextAvailableServer
        { servers := poolDeadA, roundRobinCount := 2, port := "8080" } = Except.ok sel) ∧
    ∀ port after, Reachable port poolDeadA after →
      InRange after ∧ after.servers = poolDeadA ∧
      (∃ sel, getNextAvailableServer after = Except.ok sel) ∧
      ∀ index len,
        getNextAvailableServer after ≠ Except.error (Panic.indexOutOfRange index len)) :=
  ⟨by decide,
   index_safety { servers := poolDeadA, roundRobinCount := 2, port := "8080" }
     (by decide) (by decide)⟩

/-- C19 (no unavailability with shipped targets). For a non-empty pool (length
`≤ 2^62`) made only of `simpleServer` targets and every state reachable from
`NewLoadBalancer` over it, `getNextAvailableServer` returns the target at the current
cursor, probing that position only, never `nil`; and `ServeProxy` serves that target
and makes no `http.Error` reply. -/
theorem shipped_pool_available {U W R : Type} (port : String)
    (targets : List (simpleServer U)) (hne : targets ≠ [])
    (hlen : targets.length ≤ 2 ^ 62) (lb : LoadBalancer)
    (hreach : Reachable port (targets.map simpleServer.asServer) lb) (w : W) (r : R) :
    ∃ sel s effects, getNextAvailableServer lb = Except.ok sel ∧
      sel.server = some s ∧ sel.server ≠ none ∧
      InRange lb ∧ lb.servers[lb.roundRobinCount.toNat]? = some s ∧
      sel.position = some lb.roundRobinCount ∧
      ServeProxy lb w r = Except.ok (sel.lb, effects) ∧
      effects.filter Effect.isServe = [Effect.serve s w r] ∧
      effects.filter Effect.isHttpError = [] := by
  have hlen' : (targets.map simpleServer.asServer).length ≤ 2 ^ 62 := by
    rw [List.length_map]
    exact hlen
  obtain ⟨hs, _, hinv⟩ := reachable_inv port _ hlen' lb hreach
  have hpos : 0 < lb.servers.length := by
    rw [hs, List.length_map]
    exact List.length_pos.mpr hne
  have hcur : InRange lb := hinv hpos
  have hall : ∀ s, s ∈ lb.servers → s.IsAlive = true := by
    intro s hmem
    rw [hs, List.mem_map] at hmem
    obtain ⟨t, _, rfl⟩ := hmem
    rfl
  have hc := hcur.toNat_lt
  have hmod : (lb.roundRobinCount.toNat + 0) % lb.servers.length = lb.roundRobinCount.toNat := by
    rw [Nat.add_zero, Nat.mod_eq_of_lt hc]
  have hsel := getNext_select lb (by rw [hs]; exact hlen') hcur 0 hpos
    (aliveAt_of_all lb.servers hall _ (by rw [hmod]; exact hc))
    (fun t ht => absurd ht (Nat.not_lt_zero t))
  rw [hmod] at hsel
  have hget : lb.servers[lb.roundRobinCount.toNat]?
      = some (lb.servers[lb.roundRobinCount.toNat]) := List.getElem?_eq_getElem hc
  refine ⟨_, lb.servers[lb.roundRobinCount.toNat], _, hsel, hget, ?_, hcur, hget, ?_,
    ServeProxy_of_some lb w r _ _ hsel hget, rfl, rfl⟩
  · rw [hget]
    simp
  · have hv := visited_getLast? lb lb.roundRobinCount.toNat 0
    rw [hmod] at hv
    simp only [Selection.position, hget, hv]
    rw [← hcur.cursor_eq]

theorem shipped_pool_available_witness :
    ∃ sel s effects,
      getNextAvailableServer
          { servers := shippedTargets.map simpleServer.asServer,
            roundRobinCount := 1, port := "8080" } = Except.ok sel ∧
      sel.server = some s ∧ sel.server ≠ none ∧
      InRange { servers := shippedTargets.map simpleServer.asServer,
                roundRobinCount := 1, port := "8080" } ∧
      (shippedTargets.map simpleServer.asServer)[1]? = some s ∧
      sel.position = some 1 ∧
      ServeProxy { servers := shippedTargets.map simpleServer.asServer,
                   roundRobinCount := 1, port := "8080" } "writer" "GET /"
        = Except.ok (sel.lb, effects) ∧
      effects.filter Effect.isServe = [Effect.serve s "writer" "GET /"] ∧
      effects.filter Effect.isHttpError = [] :=
  shipped_pool_available "8080" shippedTargets (List.cons_ne_nil _ _) (by decide)
    { servers := shippedTargets.map simpleServer.asServer, roundRobinCount := 1, port := "8080" }
    (@Reachable.next "8080" (shippedTargets.map simpleServer.asServer)
      (NewLoadBalancer "8080" (shippedTargets.map simpleServer.asServer))
      { server := some { Address := "https://www.google.com/", IsAlive := true },
        lb := { servers := shippedTargets.map simpleServer.asServer,
                roundRobinCount := 1, port := "8080" },
        probes := [0] }
      Reachable.init rfl)
    "writer" "GET /"

end LoadBalancerRR
